import Mathlib

/-!
# Red Flag Detection Engine — verification development

Shallow embedding of the PWD works red-flag analysis engine:
`red_flag_analyzer.py` (single-record rules, the two cross-record batch
detectors, the summary input structures), the classification merge of
`pipeline.py` (`RedFlagPipeline.run`, the batch-finding merge loop), and the
input-surface fragment of `excel_reader.py` that decides the fatal-empty-input
behaviour.

Modelling conventions:
* pandas numeric cells are `Option ℚ` (a missing / unparsable cell is `none`;
  `_safe_float` maps it to `0`); machine floats are modelled by exact
  rationals.
* a pandas `Timestamp` is modelled by the pair of observations the engine
  uses: its absolute day number (`days`, used by the delay rule's date
  arithmetic at day granularity) and its calendar year (`year`, used by the
  splitting detector's grouping).
* dataframe iteration order is list order; the dataframe index after the
  reader's `reset_index(drop=True)` is the list position.
-/

set_option maxHeartbeats 1000000

/- Batteries marks the `Rat` arithmetic `@[irreducible]`, which blocks the
elaborator's `decide` pre-check on concrete rational computations (the kernel
itself reduces them fine).  Restore the default reducibility locally so the
witnesses evaluate. -/
attribute [local semireducible] Rat.sub Rat.add Rat.mul Rat.inv

namespace NMC

/-- Severity of a finding (`'HIGH' | 'MEDIUM' | 'LOW'` strings in the source). -/
inductive Severity
  | HIGH
  | MEDIUM
  | LOW
deriving DecidableEq, Repr

/-- A pandas `Timestamp`, abstracted to the two observations the engine makes
of it: absolute day number and calendar year. -/
structure Date where
  days : Int
  year : Int
deriving DecidableEq, Repr

/-- One row of the normalized dataframe: the fields of a work record that the
engine reads.  `none` models a missing / NaN cell. -/
structure WorkRecord where
  budgetItemNo : String
  nameOfWork : String
  roadCategory : Option String
  aaCost : Option ℚ
  contractCost : Option ℚ
  totalExpenditure : Option ℚ
  workOrderDate : Option Date
  timeLimitDays : Option Int
  physicalProgress : Option ℚ
  chainageFrom : Option ℚ
  chainageTo : Option ℚ
deriving DecidableEq, Repr

/-- `RedFlagAnalyzer._safe_float`: missing / unparsable becomes `0.0`. -/
def safeFloat (v : Option ℚ) : ℚ := v.getD 0

/-- `RedFlagAnalyzer._safe_int`: missing / unparsable becomes `0`. -/
def safeInt (v : Option Int) : Int := v.getD 0

/-- Round-half-to-even on an exact rational (the semantics of Python's
`round` at a tie). -/
def roundHalfEven (q : ℚ) : Int :=
  let f : Int := ⌊q⌋
  let r : ℚ := q - f
  if r < 1/2 then f
  else if 1/2 < r then f + 1
  else if Even f then f else f + 1

/-- Python's `round(x, 2)` on the model rationals. -/
def round2 (q : ℚ) : ℚ := (roundHalfEven (q * 100) : ℚ) / 100

/-! ## Road-number extraction (`_extract_road_number`)

The source tries the regex patterns `SH-?\s*(\d+)`, `MDR-?\s*(\d+)`,
`NH-?\s*(\d+)` in this order (the trailing separator-less patterns are
subsumed by the first three), case-insensitively, and returns the class token
concatenated with the captured digit run.  `re.search` scans positions left to
right; at a position the pattern consumes the class letters, an optional `-`,
any run of whitespace, then a maximal nonempty digit run. -/

/-- Python `\d`. -/
def isDigitChar (c : Char) : Bool := '0' ≤ c && c ≤ '9'

/-- Python `\s` (space, tab, newline, carriage return, form feed, vertical tab). -/
def isSpaceChar (c : Char) : Bool :=
  c = ' ' || c = '\t' || c = '\n' || c = '\r' || c = '\x0c' || c = '\x0b'

/-- Maximal leading digit run (the greedy capture group `(\d+)`). -/
def takeDigits : List Char → List Char
  | [] => []
  | c :: cs => if isDigitChar c then c :: takeDigits cs else []

/-- If `s` starts with the literal `cls`, the remainder; else `none`. -/
def dropLit : List Char → List Char → Option (List Char)
  | [], s => some s
  | _ :: _, [] => none
  | c :: cs, x :: xs => if x = c then dropLit cs xs else none

/-- Try to match `<cls>-?\s*(\d+)` at the head of `s`; return the captured
digits. -/
def matchClassAt (cls : List Char) (s : List Char) : Option (List Char) :=
  match dropLit cls s with
  | none => none
  | some rest =>
    let rest1 := match rest with
      | '-' :: t => t
      | _ => rest
    let rest2 := rest1.dropWhile isSpaceChar
    let ds := takeDigits rest2
    if ds.isEmpty then none else some ds

/-- `re.search` for `<cls>-?\s*(\d+)`: scan match-start positions left to
right. -/
def searchClass (cls : List Char) : List Char → Option (List Char)
  | [] => none
  | c :: rest =>
    match matchClassAt cls (c :: rest) with
    | some ds => some ds
    | none => searchClass cls rest

/-- `RedFlagAnalyzer._extract_road_number`: the normalized road key
(`"SH56"`, `"MDR43"`, …) or `none`.  Case-insensitivity of `re.IGNORECASE`
is modelled by uppercasing the scanned text, which also absorbs the
callers' `str(...).upper()` (uppercasing twice equals uppercasing once). -/
def extractRoadNumber (workName : String) : Option String :=
  let u := workName.data.map Char.toUpper
  match searchClass ['S', 'H'] u with
  | some ds => some (String.mk ('S' :: 'H' :: ds))
  | none =>
    match searchClass ['M', 'D', 'R'] u with
    | some ds => some (String.mk ('M' :: 'D' :: 'R' :: ds))
    | none =>
      (searchClass ['N', 'H'] u).map fun ds => String.mk ('N' :: 'H' :: ds)

/-! ## Findings -/

/-- The `details` mapping of a single-record finding: the numbers that
justified it, per rule. -/
inductive FindingDetails
  | excess (aa_cost_lakh total_expenditure_lakh excess_amount_lakh
      excess_percentage : ℚ)
  | delay (work_order_days : Int) (time_limit_days : Int)
      (expected_completion : Int) (current_date : Int) (delay_days : Int)
      (physical_progress_percent : ℚ)
deriving DecidableEq, Repr

/-- A single-record finding dict. -/
structure Finding where
  flag_id : Nat
  flag_name : String
  severity : Severity
  details : FindingDetails
deriving DecidableEq, Repr

/-- One entry of a batch finding's `affected_records` list.
`contract_cost_lakh` is present only in splitting findings. -/
structure AffectedRec where
  record_index : Nat
  budget_item_no : String
  contract_cost_lakh : Option ℚ
  chainage_from : ℚ
  chainage_to : ℚ
deriving DecidableEq, Repr

/-- A cross-record (batch) finding dict.  `descRoadKey` / `descYear` model the
data interpolated into the `description` string; `total_cost` is present only
in splitting findings. -/
structure BatchFinding where
  flag_id : Nat
  flag_name : String
  severity : Severity
  descRoadKey : String
  descYear : Option Int
  affected : List AffectedRec
  total_cost : Option ℚ
deriving DecidableEq, Repr

/-- The record indexes a batch finding implicates (in list order). -/
def BatchFinding.affectedIndexes (b : BatchFinding) : List Nat :=
  b.affected.map (·.record_index)

/-- An element of a red entry's `flags` list: either a single-record finding
or an appended batch finding. -/
inductive RecordFlag
  | single (f : Finding)
  | batch (b : BatchFinding)
deriving DecidableEq, Repr

/-! ## Single-record rules (`RedFlagAnalyzer`) -/

/-- `_check_survey_wastage` (flag 2): the required fields are not in the
schema; the method exists and always returns `None`. -/
def checkSurveyWastage (_row : WorkRecord) : Option Finding := none

/-- `_check_excess_expenditure` (flag 3): expenditure exceeding the
administrative approval by more than 10 %. -/
def checkExcessExpenditure (row : WorkRecord) : Option Finding :=
  let aa_cost := safeFloat row.aaCost
  let total_exp := safeFloat row.totalExpenditure
  if 0 < aa_cost then
    let excess_percentage := (total_exp - aa_cost) / aa_cost * 100
    if 10 < excess_percentage then
      some
        { flag_id := 3
          flag_name := "Excess Expenditure Without Approval"
          severity := .HIGH
          details := .excess aa_cost total_exp (total_exp - aa_cost)
            (round2 excess_percentage) }
    else none
  else none

/-- `_check_delay_in_completion` (flag 5): work past its stipulated period and
not 100 % complete.  `currentDate` is the run's fixed evaluation instant
(`self.current_date`), as a day number. -/
def checkDelayInCompletion (currentDate : Int) (row : WorkRecord) :
    Option Finding :=
  match row.workOrderDate with
  | none => none
  | some d =>
    let time_limit_days := safeInt row.timeLimitDays
    let physical_progress := safeFloat row.physicalProgress
    if 0 < time_limit_days then
      let expected_completion := d.days + time_limit_days
      if expected_completion < currentDate ∧ physical_progress < 100 then
        some
          { flag_id := 5
            flag_name := "Delay in Completion of Work"
            severity := .MEDIUM
            details := .delay d.days time_limit_days expected_completion
              currentDate (currentDate - expected_completion)
              physical_progress }
      else none
    else none

/-- `_analyze_single_record`: the per-record rules in their fixed order
(flag 2 survey wastage, flag 3 excess expenditure, flag 5 delay; flags 1, 4,
6, 7, 8 are skipped there — 4 and 6 go to the batch phase). -/
def analyzeSingleRecord (currentDate : Int) (row : WorkRecord) :
    List Finding :=
  (checkSurveyWastage row).toList
    ++ (checkExcessExpenditure row).toList
    ++ (checkDelayInCompletion currentDate row).toList

/-- The rule catalogue the single-record evaluator exposes: exactly the check
methods defined on `RedFlagAnalyzer` and invoked by `_analyze_single_record`.
The source defines `_check_survey_wastage`, `_check_excess_expenditure` and
`_check_delay_in_completion`; diversion of funds (flag 1), non-recovery of
centage (flag 7) and unspent balance (flag 8) exist only as comments, with no
method. -/
def ruleCatalogue : List (String × (Int → WorkRecord → Option Finding)) :=
  [("_check_survey_wastage", fun _ row => checkSurveyWastage row),
   ("_check_excess_expenditure", fun _ row => checkExcessExpenditure row),
   ("_check_delay_in_completion",
     fun currentDate row => checkDelayInCompletion currentDate row)]

/-! ## Per-record classification (`analyze_all_flags`) -/

/-- A `red_flagged` entry. -/
structure RedEntry where
  record_index : Nat
  budget_item_no : String
  name_of_work : String
  flags : List RecordFlag
deriving DecidableEq, Repr

/-- A `green_flagged` entry. -/
structure GreenEntry where
  record_index : Nat
  budget_item_no : String
  name_of_work : String
deriving DecidableEq, Repr

/-- The `results` dict of `analyze_all_flags` (the fields the claims are
about; `flag_summary` and `timestamp` are derived output not modelled). -/
structure AnalysisResults where
  total_records : Nat
  red_flagged : List RedEntry
  green_flagged : List GreenEntry
deriving DecidableEq, Repr

/-- One iteration of the `analyze_all_flags` loop body. -/
def classifyStep (currentDate : Int) (res : AnalysisResults)
    (p : Nat × WorkRecord) : AnalysisResults :=
  let record_flags := analyzeSingleRecord currentDate p.2
  if record_flags.isEmpty then
    { res with green_flagged := res.green_flagged ++
        [{ record_index := p.1 + 2
           budget_item_no := p.2.budgetItemNo
           name_of_work := p.2.nameOfWork }] }
  else
    { res with red_flagged := res.red_flagged ++
        [{ record_index := p.1 + 2
           budget_item_no := p.2.budgetItemNo
           name_of_work := p.2.nameOfWork
           flags := record_flags.map .single }] }

/-- `RedFlagAnalyzer.analyze_all_flags`: classify every record into exactly
one of `red_flagged` / `green_flagged` (index `idx + 2`: Excel is 1-indexed
and has a header row). -/
def analyzeAllFlags (currentDate : Int) (records : List WorkRecord) :
    AnalysisResults :=
  records.enum.foldl (classifyStep currentDate)
    { total_records := records.length, red_flagged := [], green_flagged := [] }

/-! ## Batch analysis (`analyze_batch_flags`) -/

/-- pandas `Series.dropna().unique()`: the distinct values in order of first
appearance. -/
def uniqueList {α : Type} [DecidableEq α] (l : List α) : List α :=
  l.foldl (fun acc x => if x ∈ acc then acc else acc ++ [x]) []

/-- `pd.to_datetime(..., errors='coerce').dt.year` of a record's work-order
date. -/
def yearOf (row : WorkRecord) : Option Int := row.workOrderDate.map (·.year)

/-- `RedFlagAnalyzer._chainages_overlap`:
`not (to1 < from2 or to2 < from1)` — closed-interval overlap. -/
def chainagesOverlap (from1 to1 from2 to2 : ℚ) : Prop :=
  ¬(to1 < from2 ∨ to2 < from1)

instance (from1 to1 from2 to2 : ℚ) :
    Decidable (chainagesOverlap from1 to1 from2 to2) := by
  unfold chainagesOverlap; infer_instance

/-- The overlap finding dict built at the emission site of
`_check_overlapping_works` for the indexed pair `p1`, `p2`. -/
def mkOverlapFinding (roadKey : String) (p1 p2 : Nat × WorkRecord) :
    BatchFinding :=
  { flag_id := 4
    flag_name := "Overlapping of Work"
    severity := .HIGH
    descRoadKey := roadKey
    descYear := none
    affected :=
      [{ record_index := p1.1 + 2
         budget_item_no := p1.2.budgetItemNo
         contract_cost_lakh := none
         chainage_from := safeFloat p1.2.chainageFrom
         chainage_to := safeFloat p1.2.chainageTo },
       { record_index := p2.1 + 2
         budget_item_no := p2.2.budgetItemNo
         contract_cost_lakh := none
         chainage_from := safeFloat p2.2.chainageFrom
         chainage_to := safeFloat p2.2.chainageTo }]
    total_cost := none }

/-- The inner-loop body of `_check_overlapping_works`: compare `p1` against
`p2` (skipping `idx1 >= idx2`, skipping a `p2` whose chainage is `(0, 0)`),
and emit the finding iff the chainages overlap and both road keys extract
and are equal. -/
def overlapPairCheck (p1 p2 : Nat × WorkRecord) : Option BatchFinding :=
  if p2.1 ≤ p1.1 then none
  else
    let from2 := safeFloat p2.2.chainageFrom
    let to2 := safeFloat p2.2.chainageTo
    if from2 = 0 ∧ to2 = 0 then none
    else if chainagesOverlap (safeFloat p1.2.chainageFrom)
        (safeFloat p1.2.chainageTo) from2 to2 then
      match extractRoadNumber p1.2.nameOfWork,
          extractRoadNumber p2.2.nameOfWork with
      | some road_num1, some road_num2 =>
        if road_num1 = road_num2 then
          some (mkOverlapFinding road_num1 p1 p2)
        else none
      | _, _ => none
    else none

/-- The outer-loop body of `_check_overlapping_works`: skip a `p1` whose
chainage is `(0, 0)`, else compare it against every row of the category
group. -/
def overlapRowScan (road_works : List (Nat × WorkRecord))
    (p1 : Nat × WorkRecord) : List BatchFinding :=
  if safeFloat p1.2.chainageFrom = 0 ∧ safeFloat p1.2.chainageTo = 0 then []
  else road_works.filterMap (overlapPairCheck p1)

/-- The rows of one road-category group, with their dataframe indexes. -/
def roadWorksOf (records : List WorkRecord) (road_cat : String) :
    List (Nat × WorkRecord) :=
  records.enum.filter (fun p => p.2.roadCategory = some road_cat)

/-- One road-category iteration of `_check_overlapping_works`. -/
def overlapCatScan (records : List WorkRecord) (road_cat : String) :
    List BatchFinding :=
  (roadWorksOf records road_cat).flatMap
    (overlapRowScan (roadWorksOf records road_cat))

/-- `RedFlagAnalyzer._check_overlapping_works` (flag 4): group records by
road category; within a group compare each pair once (`idx1 >= idx2` is
skipped); skip records whose chainage is exactly `(0, 0)`; an overlapping
pair is emitted iff both road keys extract and are equal. -/
def checkOverlappingWorks (records : List WorkRecord) : List BatchFinding :=
  (uniqueList (records.filterMap (·.roadCategory))).flatMap
    (overlapCatScan records)

/-- One entry of a `road_groups` bucket in `_check_splitting_of_works`
(the dict `{'index', 'row', 'contract_cost', 'from', 'to'}`). -/
structure SplitWork where
  index : Nat
  row : WorkRecord
  contract_cost : ℚ
  fromCh : ℚ
  toCh : ℚ
deriving DecidableEq, Repr

/-- Build the bucket entry for an indexed record. -/
def mkSplitWork (p : Nat × WorkRecord) : SplitWork :=
  { index := p.1
    row := p.2
    contract_cost := safeFloat p.2.contractCost
    fromCh := safeFloat p.2.chainageFrom
    toCh := safeFloat p.2.chainageTo }

/-- The bucket-entry builder of `_check_splitting_of_works`: a record is
kept iff its road key extracts and its contract cost is strictly between
`0` and `10`; the entry is tagged with the key. -/
def splitQualFun (p : Nat × WorkRecord) : Option (String × SplitWork) :=
  match extractRoadNumber p.2.nameOfWork with
  | some road_num =>
    if 0 < safeFloat p.2.contractCost ∧ safeFloat p.2.contractCost < 10 then
      some (road_num, mkSplitWork p)
    else none
  | none => none

/-- The qualifying records of a `(year, road category)` partition, tagged
with their extracted road key, in iteration order. -/
def splitQual (records : List WorkRecord) (year : Int) (road_cat : String) :
    List (String × SplitWork) :=
  ((records.enum.filter (fun p => yearOf p.2 = some year)).filter
      (fun p => p.2.roadCategory = some road_cat)).filterMap splitQualFun

/-- The `road_groups[road_num]` bucket of a `(year, road category)`
partition. -/
def groupMembers (records : List WorkRecord) (year : Int)
    (road_cat road_num : String) : List SplitWork :=
  ((splitQual records year road_cat).filter (fun q => q.1 = road_num)).map
    (·.2)

/-- Sort key order of `sorted(works, key=lambda x: x['from'])`. -/
def splitWorkLE (a b : SplitWork) : Prop := a.fromCh ≤ b.fromCh

instance : DecidableRel splitWorkLE := fun a b => by
  unfold splitWorkLE; infer_instance

instance : IsTotal SplitWork splitWorkLE :=
  ⟨fun a b => le_total a.fromCh b.fromCh⟩

instance : IsTrans SplitWork splitWorkLE :=
  ⟨fun _ _ _ h1 h2 => le_trans h1 h2⟩

/-- Python's `sorted(works, key=lambda x: x['from'])`: a stable sort on the
`from` key (insertion sort is stable, hence extensionally equal to Timsort
for this key). -/
def sortWorks (works : List SplitWork) : List SplitWork :=
  works.insertionSort splitWorkLE

/-- The continuity walk of `_check_splitting_of_works`: `continuous` stays
`True` iff no adjacent gap `next['from'] - cur['to']` exceeds `5`. -/
def continuousWorks : List SplitWork → Bool
  | [] => true
  | [_] => true
  | a :: b :: rest =>
    if 5 < b.fromCh - a.toCh then false else continuousWorks (b :: rest)

/-- The `affected_records` entry a splitting finding lists for one bucket
member. -/
def toAffected (w : SplitWork) : AffectedRec :=
  { record_index := w.index + 2
    budget_item_no := w.row.budgetItemNo
    contract_cost_lakh := some w.contract_cost
    chainage_from := w.fromCh
    chainage_to := w.toCh }

/-- The splitting finding dict built at the emission site of
`_check_splitting_of_works` from the sorted bucket: it lists every member
with its cost and chainage, and the summed contract cost of the group. -/
def mkSplitFinding (road_num : String) (year : Int)
    (works_sorted : List SplitWork) : BatchFinding :=
  { flag_id := 6
    flag_name := "Splitting of Work"
    severity := .HIGH
    descRoadKey := road_num
    descYear := some year
    affected := works_sorted.map toAffected
    total_cost := some ((works_sorted.map (·.contract_cost)).sum) }

/-- One road-key bucket check of `_check_splitting_of_works`: flagged iff
the bucket has at least 3 records and its chainage-from-sorted adjacent
gaps never exceed 5. -/
def splitGroupCheck (records : List WorkRecord) (year : Int)
    (road_cat road_num : String) : Option BatchFinding :=
  let works := groupMembers records year road_cat road_num
  if 3 ≤ works.length then
    let works_sorted := sortWorks works
    if continuousWorks works_sorted then
      some (mkSplitFinding road_num year works_sorted)
    else none
  else none

/-- One `(year, road category)` iteration of `_check_splitting_of_works`:
check every road-key bucket of the partition. -/
def splitKeyScan (records : List WorkRecord) (year : Int)
    (road_cat : String) : List BatchFinding :=
  (uniqueList ((splitQual records year road_cat).map (·.1))).filterMap
    (splitGroupCheck records year road_cat)

/-- `RedFlagAnalyzer._check_splitting_of_works` (flag 6): partition by
work-order year then road category, bucket the qualifying records by road
key, and flag each bucket of at least 3 records whose chainage-from-sorted
adjacent gaps never exceed 5. -/
def checkSplittingOfWorks (records : List WorkRecord) : List BatchFinding :=
  (uniqueList (records.filterMap yearOf)).flatMap fun year =>
    let year_works := records.enum.filter (fun p => yearOf p.2 = some year)
    (uniqueList (year_works.filterMap (·.2.roadCategory))).flatMap
      (splitKeyScan records year)

/-- `RedFlagAnalyzer.analyze_batch_flags`: the overlap findings followed by
the splitting findings. -/
def analyzeBatchFlags (records : List WorkRecord) : List BatchFinding :=
  checkOverlappingWorks records ++ checkSplittingOfWorks records

/-! ## Classification merge (`RedFlagPipeline.run`, the batch-flag loop) -/

/-- Append `bf` to the `flags` of the first red entry whose `record_index`
matches (the `existing_entry` search-and-append of `pipeline.run`). -/
def applyToRed (ri : Nat) (bf : BatchFinding) :
    List RedEntry → List RedEntry
  | [] => []
  | e :: es =>
    if e.record_index = ri then
      { e with flags := e.flags ++ [.batch bf] } :: es
    else e :: applyToRed ri bf es

/-- Find the first green entry whose `record_index` matches; return it with
the list with that occurrence removed (the `enumerate`/`pop(i)` loop of
`pipeline.run`). -/
def findGreen (ri : Nat) : List GreenEntry → Option (GreenEntry × List GreenEntry)
  | [] => none
  | g :: gs =>
    if g.record_index = ri then some (g, gs)
    else
      match findGreen ri gs with
      | some (g', rest) => some (g', g :: rest)
      | none => none

/-- Merge one affected record index of one batch finding: append to an
existing red entry, else promote the matching green entry (its copy gets
`flags := [bf]` and moves to the end of `red_flagged`). -/
def mergeOne (res : AnalysisResults) (ri : Nat) (bf : BatchFinding) :
    AnalysisResults :=
  if res.red_flagged.any (fun e => e.record_index = ri) then
    { res with red_flagged := applyToRed ri bf res.red_flagged }
  else
    match findGreen ri res.green_flagged with
    | some (g, rest) =>
      { res with
          red_flagged := res.red_flagged ++
            [{ record_index := g.record_index
               budget_item_no := g.budget_item_no
               name_of_work := g.name_of_work
               flags := [.batch bf] }]
          green_flagged := rest }
    | none => res

/-- Merge one batch finding: fold over its `affected_records`. -/
def mergeBatch (res : AnalysisResults) (bf : BatchFinding) : AnalysisResults :=
  bf.affectedIndexes.foldl (fun r ri => mergeOne r ri bf) res

/-- Merge a list of batch findings (the outer loop of `pipeline.run`). -/
def mergeAll (res : AnalysisResults) (bfs : List BatchFinding) :
    AnalysisResults :=
  bfs.foldl mergeBatch res

/-- The engine run on a given batch-finding list: single-record
classification followed by the batch merge.  `pipeline.run` instantiates
`bfs := analyzeBatchFlags records`. -/
def runEngine (currentDate : Int) (records : List WorkRecord)
    (bfs : List BatchFinding) : AnalysisResults :=
  mergeAll (analyzeAllFlags currentDate records) bfs

/-- The full pipeline classification: merge exactly the run's own batch
findings. -/
def runPipeline (currentDate : Int) (records : List WorkRecord) :
    AnalysisResults :=
  runEngine currentDate records (analyzeBatchFlags records)

/-! ## Input surface (`ExcelReader.read_excel`, lines 82–96) -/

/-- The rows of a worksheet: the first row is the header. -/
def readExcelData (data : List (List (Option String))) :
    Except String (List (Option String) × List (List (Option String))) :=
  if 0 < data.length then
    .ok (data.headI, data.tail)
  else
    .error "Excel file is empty"

/-- `ExcelReader._columns_match` cleaning step: lowercase and strip spaces,
underscores, dots. -/
def cleanColName (s : String) : List Char :=
  (s.data.map Char.toLower).filter fun c => c ≠ ' ' ∧ c ≠ '_' ∧ c ≠ '.'

/-- Substring containment on character lists (Python `in`). -/
def containsSub (needle haystack : List Char) : Bool :=
  match haystack with
  | [] => needle.isEmpty
  | _ :: rest =>
    match dropLit needle haystack with
    | some _ => true
    | none => containsSub needle rest

/-- `ExcelReader._columns_match`: exact match after cleaning, substring
either way, or positionwise similarity at least `0.8`. -/
def columnsMatch (expected actual : String) : Bool :=
  let e := cleanColName expected
  let a := cleanColName actual
  if e = a then true
  else if containsSub e a || containsSub a e then true
  else
    let sameCnt := (e.zip a).countP fun p => p.1 = p.2
    let maxLen := max e.length a.length
    if maxLen = 0 then false
    else decide ((4 : ℚ) / 5 ≤ (sameCnt : ℚ) / (maxLen : ℚ))

/-- The critical columns of `ExcelReader._validate_columns`. -/
def criticalColumns : List String :=
  ["Budget Item No.", "Name of the work",
   "Administrative Approval Cost (Lakh)", "Total Expenditure (Lakhs)"]

/-- `ExcelReader._validate_columns`: the critical columns with no fuzzy match
among the current columns.  The source only logs a warning for these — it
never raises. -/
def missingCriticalColumns (currentColumns : List String) : List String :=
  criticalColumns.filter fun c => !currentColumns.any (columnsMatch c ·)

/-- The reader's outcome as the caller sees it: the header, the data rows and
the (warning-only) list of missing critical columns.  The only `.error`
outcome is the completely empty worksheet. -/
def readAndValidate (data : List (List (Option String))) :
    Except String
      (List (Option String) × List (List (Option String)) × List String) :=
  match readExcelData data with
  | .error e => .error e
  | .ok (header, rows) =>
    .ok (header, rows, missingCriticalColumns (header.map (·.getD "Unnamed")))

/-! ## Generic list lemmas used by the proofs -/

theorem countP_flatMap' {α β : Type} (p : β → Bool) (f : α → List β)
    (l : List α) :
    (l.flatMap f).countP p = (l.map fun x => (f x).countP p).sum := by
  rw [List.flatMap_def, List.countP_flatten, List.map_map]
  rfl

theorem sum_map_zero' {α : Type} (g : α → Nat) (l : List α)
    (h : ∀ b ∈ l, g b = 0) : (l.map g).sum = 0 := by
  induction l with
  | nil => rfl
  | cons x xs ih =>
    have hx : g x = 0 := h x (List.mem_cons_self x xs)
    simp only [List.map_cons, List.sum_cons, hx, Nat.zero_add]
    exact ih fun b hb => h b (List.mem_cons_of_mem _ hb)

theorem sum_map_single' {α : Type} [DecidableEq α] (g : α → Nat) :
    ∀ (l : List α) (a : α), l.count a = 1 →
      (∀ b ∈ l, b ≠ a → g b = 0) → (l.map g).sum = g a := by
  intro l
  induction l with
  | nil => intro a h; simp at h
  | cons x xs ih =>
    intro a hcount hz
    by_cases hxa : x = a
    · subst hxa
      have hxs : xs.count x = 0 := by
        have := List.count_cons_self x xs
        omega
      have hnot : x ∉ xs := by
        intro hmem
        have := List.count_pos_iff.2 hmem
        omega
      have : (xs.map g).sum = 0 := by
        apply sum_map_zero'
        intro b hb
        exact hz b (List.mem_cons_of_mem _ hb) (fun hba => hnot (hba ▸ hb))
      simp [this]
    · have hx0 : g x = 0 := hz x (List.mem_cons_self x xs) hxa
      have hcount' : xs.count a = 1 := by
        rw [List.count_cons_of_ne (fun h => hxa h.symm)] at hcount
        exact hcount
      have := ih a hcount' fun b hb hba =>
        hz b (List.mem_cons_of_mem _ hb) hba
      simp [hx0, this]

theorem uniqueList_aux {α : Type} [DecidableEq α] :
    ∀ (l acc : List α), acc.Nodup →
      (l.foldl (fun acc x => if x ∈ acc then acc else acc ++ [x]) acc).Nodup
      ∧ ∀ a, a ∈ l.foldl (fun acc x => if x ∈ acc then acc else acc ++ [x]) acc
          ↔ a ∈ acc ∨ a ∈ l := by
  intro l
  induction l with
  | nil => intro acc h; simpa using h
  | cons x xs ih =>
    intro acc hacc
    simp only [List.foldl_cons]
    by_cases hx : x ∈ acc
    · rw [if_pos hx]
      obtain ⟨h1, h2⟩ := ih acc hacc
      refine ⟨h1, fun a => ?_⟩
      rw [h2 a]
      constructor
      · rintro (h | h)
        · exact Or.inl h
        · exact Or.inr (List.mem_cons_of_mem _ h)
      · rintro (h | h)
        · exact Or.inl h
        · rcases List.mem_cons.1 h with h | h
          · exact Or.inl (h ▸ hx)
          · exact Or.inr h
    · rw [if_neg hx]
      have hacc' : (acc ++ [x]).Nodup := by
        rw [List.nodup_append]
        exact ⟨hacc, List.nodup_singleton x,
          fun a ha hax => hx ((List.mem_singleton.1 hax) ▸ ha)⟩
      obtain ⟨h1, h2⟩ := ih (acc ++ [x]) hacc'
      refine ⟨h1, fun a => ?_⟩
      rw [h2 a]
      simp only [List.mem_append, List.mem_singleton, List.mem_cons]
      tauto

theorem uniqueList_nodup {α : Type} [DecidableEq α] (l : List α) :
    (uniqueList l).Nodup :=
  (uniqueList_aux l [] List.nodup_nil).1

theorem mem_uniqueList {α : Type} [DecidableEq α] (l : List α) (a : α) :
    a ∈ uniqueList l ↔ a ∈ l := by
  have := (uniqueList_aux l [] List.nodup_nil).2 a
  simpa using this

theorem count_uniqueList {α : Type} [DecidableEq α] (l : List α) (a : α) :
    (uniqueList l).count a = if a ∈ l then 1 else 0 := by
  by_cases h : a ∈ l
  · rw [if_pos h]
    exact List.count_eq_one_of_mem (uniqueList_nodup l)
      ((mem_uniqueList l a).2 h)
  · rw [if_neg h]
    exact List.count_eq_zero_of_not_mem
      (fun hm => h ((mem_uniqueList l a).1 hm))

theorem countP_unique {α : Type} (q : α → Bool) :
    ∀ l : List α, l.Nodup →
      (∀ a ∈ l, ∀ b ∈ l, q a = true → q b = true → a = b) →
      l.countP q = if ∃ a ∈ l, q a = true then 1 else 0 := by
  intro l
  induction l with
  | nil => intro _ _; simp
  | cons x xs ih =>
    intro hnd huniq
    have hnd' := List.nodup_cons.1 hnd
    by_cases hx : q x = true
    · rw [List.countP_cons_of_pos _ _ hx]
      have hxs : xs.countP q = 0 := by
        apply List.countP_eq_zero.2
        intro a ha hqa
        exact absurd (huniq a (List.mem_cons_of_mem _ ha) x
          (List.mem_cons_self x xs) hqa hx ▸ ha) hnd'.1
      rw [hxs, if_pos ⟨x, List.mem_cons_self x xs, hx⟩]
    · rw [List.countP_cons_of_neg _ _ (by simp [hx])]
      rw [ih hnd'.2
        (fun a ha b hb => huniq a (List.mem_cons_of_mem _ ha) b
          (List.mem_cons_of_mem _ hb))]
      by_cases hex : ∃ a ∈ xs, q a = true
      · obtain ⟨a, ha, hqa⟩ := hex
        rw [if_pos ⟨a, ha, hqa⟩,
          if_pos ⟨a, List.mem_cons_of_mem _ ha, hqa⟩]
      · rw [if_neg hex, if_neg]
        rintro ⟨a, ha, hqa⟩
        rcases List.mem_cons.1 ha with rfl | ha'
        · exact hx hqa
        · exact hex ⟨a, ha', hqa⟩

/-! ## Partition bookkeeping for the merge proofs -/

/-- The record indexes currently red. -/
def redIdx (res : AnalysisResults) : List Nat :=
  res.red_flagged.map (·.record_index)

/-- The record indexes currently green. -/
def greenIdx (res : AnalysisResults) : List Nat :=
  res.green_flagged.map (·.record_index)

/-- All record indexes, red first. -/
def allIdx (res : AnalysisResults) : List Nat := redIdx res ++ greenIdx res

theorem applyToRed_map_index (ri : Nat) (bf : BatchFinding) :
    ∀ l : List RedEntry,
      (applyToRed ri bf l).map (·.record_index) = l.map (·.record_index) := by
  intro l
  induction l with
  | nil => rfl
  | cons e es ih =>
    unfold applyToRed
    by_cases h : e.record_index = ri
    · simp [h]
    · simp [h, ih]

theorem findGreen_none (ri : Nat) :
    ∀ l : List GreenEntry, findGreen ri l = none →
      ri ∉ l.map (·.record_index) := by
  intro l
  induction l with
  | nil => simp
  | cons g gs ih =>
    intro h
    unfold findGreen at h
    by_cases hg : g.record_index = ri
    · simp [hg] at h
    · simp only [hg, if_false] at h
      match hrec : findGreen ri gs with
      | some (g', rest) => rw [hrec] at h; simp at h
      | none =>
        simp only [List.map_cons, List.mem_cons]
        rintro (h' | h')
        · exact hg h'.symm
        · exact ih hrec h'

theorem findGreen_some (ri : Nat) :
    ∀ (l : List GreenEntry) (g : GreenEntry) (rest : List GreenEntry),
      findGreen ri l = some (g, rest) →
      g.record_index = ri ∧ l.Perm (g :: rest) := by
  intro l
  induction l with
  | nil => intro g rest h; simp [findGreen] at h
  | cons g0 gs ih =>
    intro g rest h
    unfold findGreen at h
    by_cases hg : g0.record_index = ri
    · rw [if_pos hg] at h
      obtain ⟨h1, h2⟩ : g0 = g ∧ gs = rest := by
        simpa using h
      subst h1; subst h2
      exact ⟨hg, List.Perm.refl _⟩
    · rw [if_neg hg] at h
      match hrec : findGreen ri gs with
      | none => rw [hrec] at h; simp at h
      | some (g', rest') =>
        rw [hrec] at h
        obtain ⟨h1, h2⟩ : g' = g ∧ g0 :: rest' = rest := by
          simpa using h
        subst h1
        subst h2
        obtain ⟨hgi, hperm⟩ := ih g' rest' hrec
        refine ⟨hgi, ?_⟩
        have step1 : (g0 :: gs).Perm (g0 :: g' :: rest') := hperm.cons g0
        have step2 : (g0 :: g' :: rest').Perm (g' :: g0 :: rest') :=
          List.Perm.swap g' g0 rest'
        exact step1.trans step2

theorem findGreen_isSome (ri : Nat) :
    ∀ l : List GreenEntry, ri ∈ l.map (·.record_index) →
      ∃ g rest, findGreen ri l = some (g, rest) := by
  intro l hmem
  match h : findGreen ri l with
  | some (g, rest) => exact ⟨g, rest, rfl⟩
  | none => exact absurd hmem (findGreen_none ri l h)

/-- The red entry a promotion creates from a green entry. -/
def promoteEntry (g : GreenEntry) (bf : BatchFinding) : RedEntry :=
  { record_index := g.record_index
    budget_item_no := g.budget_item_no
    name_of_work := g.name_of_work
    flags := [.batch bf] }

theorem mergeOne_eq_append (res : AnalysisResults) (ri : Nat)
    (bf : BatchFinding)
    (h : res.red_flagged.any (fun e => e.record_index = ri) = true) :
    mergeOne res ri bf =
      { res with red_flagged := applyToRed ri bf res.red_flagged } := by
  unfold mergeOne
  rw [if_pos h]

theorem mergeOne_eq_promote (res : AnalysisResults) (ri : Nat)
    (bf : BatchFinding) (g : GreenEntry) (rest : List GreenEntry)
    (h : res.red_flagged.any (fun e => e.record_index = ri) = false)
    (hfg : findGreen ri res.green_flagged = some (g, rest)) :
    mergeOne res ri bf =
      { res with
          red_flagged := res.red_flagged ++ [promoteEntry g bf]
          green_flagged := rest } := by
  unfold mergeOne
  rw [if_neg (by simp [h]), hfg]
  rfl

theorem mergeOne_eq_skip (res : AnalysisResults) (ri : Nat)
    (bf : BatchFinding)
    (h : res.red_flagged.any (fun e => e.record_index = ri) = false)
    (hfg : findGreen ri res.green_flagged = none) :
    mergeOne res ri bf = res := by
  unfold mergeOne
  rw [if_neg (by simp [h]), hfg]

theorem any_index_iff (l : List RedEntry) (ri : Nat) :
    l.any (fun e => e.record_index = ri) = true ↔
      ri ∈ l.map (·.record_index) := by
  rw [List.any_eq_true]
  constructor
  · rintro ⟨e, he, hei⟩
    exact List.mem_map.2 ⟨e, he, of_decide_eq_true hei⟩
  · intro hm
    obtain ⟨e, he, hei⟩ := List.mem_map.1 hm
    exact ⟨e, he, decide_eq_true hei⟩

theorem mergeOne_total (res : AnalysisResults) (ri : Nat) (bf : BatchFinding) :
    (mergeOne res ri bf).total_records = res.total_records := by
  match h : res.red_flagged.any (fun e => e.record_index = ri) with
  | true => rw [mergeOne_eq_append res ri bf h]
  | false =>
    match hfg : findGreen ri res.green_flagged with
    | some (g, rest) => rw [mergeOne_eq_promote res ri bf g rest h hfg]
    | none => rw [mergeOne_eq_skip res ri bf h hfg]

theorem allIdx_mergeOne (res : AnalysisResults) (ri : Nat) (bf : BatchFinding) :
    (allIdx (mergeOne res ri bf)).Perm (allIdx res) := by
  match h : res.red_flagged.any (fun e => e.record_index = ri) with
  | true =>
    rw [mergeOne_eq_append res ri bf h]
    unfold allIdx redIdx greenIdx
    rw [applyToRed_map_index]
  | false =>
    match hfg : findGreen ri res.green_flagged with
    | some (g, rest) =>
      rw [mergeOne_eq_promote res ri bf g rest h hfg]
      obtain ⟨hgi, hperm⟩ := findGreen_some ri res.green_flagged g rest hfg
      unfold allIdx redIdx greenIdx promoteEntry
      simp only [List.map_append, List.map_cons, List.map_nil]
      have hg : (res.green_flagged.map (·.record_index)).Perm
          (g.record_index :: rest.map (·.record_index)) := by
        have := hperm.map (·.record_index)
        simpa using this
      have step1 :
          res.red_flagged.map (·.record_index) ++ [g.record_index]
            ++ rest.map (·.record_index)
          = res.red_flagged.map (·.record_index)
            ++ (g.record_index :: rest.map (·.record_index)) := by
        rw [List.append_assoc]
        rfl
      rw [step1]
      exact List.Perm.append_left _ hg.symm
    | none =>
      rw [mergeOne_eq_skip res ri bf h hfg]

theorem redIdx_subset_mergeOne (res : AnalysisResults) (ri : Nat)
    (bf : BatchFinding) : redIdx res ⊆ redIdx (mergeOne res ri bf) := by
  match h : res.red_flagged.any (fun e => e.record_index = ri) with
  | true =>
    rw [mergeOne_eq_append res ri bf h]
    unfold redIdx
    rw [show ({ res with red_flagged := applyToRed ri bf res.red_flagged }
        : AnalysisResults).red_flagged = applyToRed ri bf res.red_flagged
      from rfl]
    rw [applyToRed_map_index]
    exact fun a ha => ha
  | false =>
    match hfg : findGreen ri res.green_flagged with
    | some (g, rest) =>
      rw [mergeOne_eq_promote res ri bf g rest h hfg]
      unfold redIdx
      simp only [List.map_append]
      exact List.subset_append_left _ _
    | none =>
      rw [mergeOne_eq_skip res ri bf h hfg]
      exact fun a ha => ha

theorem mem_redIdx_mergeOne (res : AnalysisResults) (ri : Nat)
    (bf : BatchFinding) (hnd : (allIdx res).Nodup) (i : Nat) :
    i ∈ redIdx (mergeOne res ri bf) ↔
      i ∈ redIdx res ∨ (i = ri ∧ i ∈ greenIdx res) := by
  have hdisj : ∀ j, j ∈ redIdx res → j ∉ greenIdx res := by
    intro j hj hj'
    exact (List.nodup_append.1 hnd).2.2 hj hj'
  match h : res.red_flagged.any (fun e => e.record_index = ri) with
  | true =>
    have hri : ri ∈ redIdx res := (any_index_iff _ _).1 h
    rw [mergeOne_eq_append res ri bf h]
    unfold redIdx
    rw [show ({ res with red_flagged := applyToRed ri bf res.red_flagged }
        : AnalysisResults).red_flagged = applyToRed ri bf res.red_flagged
      from rfl]
    rw [applyToRed_map_index]
    constructor
    · exact fun hm => Or.inl hm
    · rintro (hm | ⟨rfl, hm⟩)
      · exact hm
      · exact absurd hm (hdisj i hri)
  | false =>
    have hri : ri ∉ redIdx res := by
      intro hm
      have h2 := (any_index_iff res.red_flagged ri).2 hm
      rw [h] at h2
      exact Bool.false_ne_true h2
    match hfg : findGreen ri res.green_flagged with
    | some (g, rest) =>
      rw [mergeOne_eq_promote res ri bf g rest h hfg]
      obtain ⟨hgi, hperm⟩ := findGreen_some ri res.green_flagged g rest hfg
      have hgr : ri ∈ greenIdx res := by
        unfold greenIdx
        exact List.mem_map.2 ⟨g, hperm.mem_iff.2 (List.mem_cons_self g rest),
          hgi⟩
      unfold redIdx promoteEntry
      simp only [List.map_append, List.map_cons, List.map_nil,
        List.mem_append, List.mem_singleton]
      constructor
      · rintro (hm | hm)
        · exact Or.inl hm
        · exact Or.inr ⟨hm.trans hgi, by rw [hm, hgi]; exact hgr⟩
      · rintro (hm | ⟨rfl, _⟩)
        · exact Or.inl hm
        · exact Or.inr hgi.symm
    | none =>
      rw [mergeOne_eq_skip res ri bf h hfg]
      have hgr : ri ∉ greenIdx res := findGreen_none ri res.green_flagged hfg
      constructor
      · exact fun hm => Or.inl hm
      · rintro (hm | ⟨rfl, hm⟩)
        · exact hm
        · exact absurd hm hgr

theorem mem_greenIdx_mergeOne (res : AnalysisResults) (ri : Nat)
    (bf : BatchFinding) (hnd : (allIdx res).Nodup) (i : Nat) :
    i ∈ greenIdx (mergeOne res ri bf) ↔
      i ∈ greenIdx res ∧ ¬(i = ri ∧ i ∈ greenIdx res) := by
  have hgnd : (greenIdx res).Nodup := (List.nodup_append.1 hnd).2.1
  match h : res.red_flagged.any (fun e => e.record_index = ri) with
  | true =>
    have hri : ri ∈ redIdx res := (any_index_iff _ _).1 h
    have hrg : ri ∉ greenIdx res := fun hm =>
      (List.nodup_append.1 hnd).2.2 hri hm
    rw [mergeOne_eq_append res ri bf h]
    constructor
    · exact fun hm => ⟨hm, fun ⟨he, _⟩ => hrg (he ▸ hm)⟩
    · exact fun ⟨hm, _⟩ => hm
  | false =>
    match hfg : findGreen ri res.green_flagged with
    | some (g, rest) =>
      rw [mergeOne_eq_promote res ri bf g rest h hfg]
      obtain ⟨hgi, hperm⟩ := findGreen_some ri res.green_flagged g rest hfg
      have hpermIdx : (greenIdx res).Perm
          (ri :: rest.map (·.record_index)) := by
        have := hperm.map (·.record_index)
        simpa [greenIdx, hgi] using this
      have hndc : (ri :: rest.map (·.record_index)).Nodup :=
        hpermIdx.nodup_iff.1 hgnd
      have hrirest : ri ∉ rest.map (·.record_index) :=
        (List.nodup_cons.1 hndc).1
      show i ∈ rest.map (·.record_index) ↔ _
      constructor
      · intro hm
        have himem : i ∈ greenIdx res :=
          hpermIdx.mem_iff.2 (List.mem_cons_of_mem _ hm)
        refine ⟨himem, ?_⟩
        rintro ⟨rfl, _⟩
        exact hrirest hm
      · rintro ⟨hm, hnot⟩
        rcases List.mem_cons.1 (hpermIdx.mem_iff.1 hm) with rfl | hm'
        · exact absurd ⟨rfl, hm⟩ hnot
        · exact hm'
    | none =>
      rw [mergeOne_eq_skip res ri bf h hfg]
      have hgr : ri ∉ greenIdx res := findGreen_none ri res.green_flagged hfg
      constructor
      · exact fun hm => ⟨hm, fun ⟨he, hm'⟩ => hgr (he ▸ hm')⟩
      · exact fun ⟨hm, _⟩ => hm

theorem nodup_allIdx_mergeOne (res : AnalysisResults) (ri : Nat)
    (bf : BatchFinding) (hnd : (allIdx res).Nodup) :
    (allIdx (mergeOne res ri bf)).Nodup :=
  (allIdx_mergeOne res ri bf).nodup_iff.2 hnd

theorem mergeFold_total (bf : BatchFinding) :
    ∀ (ris : List Nat) (res : AnalysisResults),
      (ris.foldl (fun r ri => mergeOne r ri bf) res).total_records =
        res.total_records := by
  intro ris
  induction ris with
  | nil => intro res; rfl
  | cons r rs ih =>
    intro res
    rw [List.foldl_cons, ih (mergeOne res r bf), mergeOne_total]

theorem allIdx_mergeFold (bf : BatchFinding) :
    ∀ (ris : List Nat) (res : AnalysisResults),
      (allIdx (ris.foldl (fun r ri => mergeOne r ri bf) res)).Perm
        (allIdx res) := by
  intro ris
  induction ris with
  | nil => intro res; exact List.Perm.refl _
  | cons r rs ih =>
    intro res
    rw [List.foldl_cons]
    exact (ih (mergeOne res r bf)).trans (allIdx_mergeOne res r bf)

theorem mem_redIdx_mergeFold (bf : BatchFinding) (i : Nat) :
    ∀ (ris : List Nat) (res : AnalysisResults), (allIdx res).Nodup →
      (i ∈ redIdx (ris.foldl (fun r ri => mergeOne r ri bf) res) ↔
        i ∈ redIdx res ∨ (i ∈ ris ∧ i ∈ greenIdx res)) := by
  intro ris
  induction ris with
  | nil => intro res _; simp
  | cons r rs ih =>
    intro res hnd
    rw [List.foldl_cons,
      ih (mergeOne res r bf) (nodup_allIdx_mergeOne res r bf hnd),
      mem_redIdx_mergeOne res r bf hnd i,
      mem_greenIdx_mergeOne res r bf hnd i]
    simp only [List.mem_cons]
    tauto

theorem mem_greenIdx_mergeFold (bf : BatchFinding) (i : Nat) :
    ∀ (ris : List Nat) (res : AnalysisResults), (allIdx res).Nodup →
      (i ∈ greenIdx (ris.foldl (fun r ri => mergeOne r ri bf) res) ↔
        i ∈ greenIdx res ∧ ¬(i ∈ ris ∧ i ∈ greenIdx res)) := by
  intro ris
  induction ris with
  | nil => intro res _; simp
  | cons r rs ih =>
    intro res hnd
    rw [List.foldl_cons,
      ih (mergeOne res r bf) (nodup_allIdx_mergeOne res r bf hnd),
      mem_greenIdx_mergeOne res r bf hnd i]
    simp only [List.mem_cons]
    tauto

theorem mergeBatch_total (res : AnalysisResults) (bf : BatchFinding) :
    (mergeBatch res bf).total_records = res.total_records :=
  mergeFold_total bf bf.affectedIndexes res

theorem allIdx_mergeBatch (res : AnalysisResults) (bf : BatchFinding) :
    (allIdx (mergeBatch res bf)).Perm (allIdx res) :=
  allIdx_mergeFold bf bf.affectedIndexes res

theorem mem_redIdx_mergeBatch (res : AnalysisResults) (bf : BatchFinding)
    (hnd : (allIdx res).Nodup) (i : Nat) :
    i ∈ redIdx (mergeBatch res bf) ↔
      i ∈ redIdx res ∨ (i ∈ bf.affectedIndexes ∧ i ∈ greenIdx res) :=
  mem_redIdx_mergeFold bf i bf.affectedIndexes res hnd

theorem mem_greenIdx_mergeBatch (res : AnalysisResults) (bf : BatchFinding)
    (hnd : (allIdx res).Nodup) (i : Nat) :
    i ∈ greenIdx (mergeBatch res bf) ↔
      i ∈ greenIdx res ∧ ¬(i ∈ bf.affectedIndexes ∧ i ∈ greenIdx res) :=
  mem_greenIdx_mergeFold bf i bf.affectedIndexes res hnd

theorem mergeAll_total :
    ∀ (bfs : List BatchFinding) (res : AnalysisResults),
      (mergeAll res bfs).total_records = res.total_records := by
  intro bfs
  induction bfs with
  | nil => intro res; rfl
  | cons b rest ih =>
    intro res
    show (mergeAll (mergeBatch res b) rest).total_records = _
    rw [ih (mergeBatch res b), mergeBatch_total]

theorem allIdx_mergeAll :
    ∀ (bfs : List BatchFinding) (res : AnalysisResults),
      (allIdx (mergeAll res bfs)).Perm (allIdx res) := by
  intro bfs
  induction bfs with
  | nil => intro res; exact List.Perm.refl _
  | cons b rest ih =>
    intro res
    exact (ih (mergeBatch res b)).trans (allIdx_mergeBatch res b)

theorem nodup_allIdx_mergeAll (bfs : List BatchFinding)
    (res : AnalysisResults) (hnd : (allIdx res).Nodup) :
    (allIdx (mergeAll res bfs)).Nodup :=
  (allIdx_mergeAll bfs res).nodup_iff.2 hnd

theorem mem_redIdx_mergeAll (i : Nat) :
    ∀ (bfs : List BatchFinding) (res : AnalysisResults),
      (allIdx res).Nodup →
      (i ∈ redIdx (mergeAll res bfs) ↔
        i ∈ redIdx res ∨
          ((∃ bf ∈ bfs, i ∈ bf.affectedIndexes) ∧ i ∈ greenIdx res)) := by
  intro bfs
  induction bfs with
  | nil => intro res _; simp [mergeAll]
  | cons b rest ih =>
    intro res hnd
    have hnd' : (allIdx (mergeBatch res b)).Nodup :=
      (allIdx_mergeBatch res b).nodup_iff.2 hnd
    show i ∈ redIdx (mergeAll (mergeBatch res b) rest) ↔ _
    rw [ih (mergeBatch res b) hnd',
      mem_redIdx_mergeBatch res b hnd i,
      mem_greenIdx_mergeBatch res b hnd i]
    simp only [List.mem_cons, exists_eq_or_imp]
    tauto

theorem mem_greenIdx_mergeAll (i : Nat) :
    ∀ (bfs : List BatchFinding) (res : AnalysisResults),
      (allIdx res).Nodup →
      (i ∈ greenIdx (mergeAll res bfs) ↔
        i ∈ greenIdx res ∧
          ¬((∃ bf ∈ bfs, i ∈ bf.affectedIndexes) ∧ i ∈ greenIdx res)) := by
  intro bfs
  induction bfs with
  | nil => intro res _; simp [mergeAll]
  | cons b rest ih =>
    intro res hnd
    have hnd' : (allIdx (mergeBatch res b)).Nodup :=
      (allIdx_mergeBatch res b).nodup_iff.2 hnd
    show i ∈ greenIdx (mergeAll (mergeBatch res b) rest) ↔ _
    rw [ih (mergeBatch res b) hnd',
      mem_greenIdx_mergeBatch res b hnd i]
    simp only [List.mem_cons, exists_eq_or_imp]
    generalize (∃ bf ∈ rest, i ∈ bf.affectedIndexes) = Q
    tauto

/-! ## The initial partition produced by `analyze_all_flags` -/

theorem classifyStep_total (currentDate : Int) (res : AnalysisResults)
    (p : Nat × WorkRecord) :
    (classifyStep currentDate res p).total_records = res.total_records := by
  unfold classifyStep
  by_cases h : (analyzeSingleRecord currentDate p.2).isEmpty
  · rw [if_pos h]
  · rw [if_neg h]

theorem classifyFold_total (currentDate : Int) :
    ∀ (l : List (Nat × WorkRecord)) (res : AnalysisResults),
      (l.foldl (classifyStep currentDate) res).total_records =
        res.total_records := by
  intro l
  induction l with
  | nil => intro res; rfl
  | cons p ps ih =>
    intro res
    rw [List.foldl_cons, ih, classifyStep_total]

theorem analyzeAllFlags_total (currentDate : Int)
    (records : List WorkRecord) :
    (analyzeAllFlags currentDate records).total_records = records.length :=
  classifyFold_total currentDate records.enum _

theorem allIdx_classifyStep (currentDate : Int) (res : AnalysisResults)
    (p : Nat × WorkRecord) :
    (allIdx (classifyStep currentDate res p)).Perm
      (allIdx res ++ [p.1 + 2]) := by
  unfold classifyStep
  by_cases h : (analyzeSingleRecord currentDate p.2).isEmpty
  · rw [if_pos h]
    unfold allIdx redIdx greenIdx
    simp only [List.map_append, List.map_cons, List.map_nil,
      List.append_assoc]
    exact List.Perm.refl _
  · rw [if_neg h]
    unfold allIdx redIdx greenIdx
    simp only [List.map_append, List.map_cons, List.map_nil]
    have step1 :
        res.red_flagged.map (·.record_index) ++ [p.1 + 2]
          ++ res.green_flagged.map (·.record_index)
        = res.red_flagged.map (·.record_index)
          ++ ((p.1 + 2) :: res.green_flagged.map (·.record_index)) := by
      rw [List.append_assoc]
      rfl
    rw [step1, List.append_assoc]
    exact List.Perm.append_left _ (List.perm_append_singleton _ _).symm

theorem allIdx_classifyFold (currentDate : Int) :
    ∀ (l : List (Nat × WorkRecord)) (res : AnalysisResults),
      (allIdx (l.foldl (classifyStep currentDate) res)).Perm
        (allIdx res ++ l.map fun p => p.1 + 2) := by
  intro l
  induction l with
  | nil => intro res; simp
  | cons p ps ih =>
    intro res
    rw [List.foldl_cons]
    have h1 := ih (classifyStep currentDate res p)
    have h2 : (allIdx (classifyStep currentDate res p)
        ++ ps.map fun q : Nat × WorkRecord => q.1 + 2).Perm
        ((allIdx res ++ [p.1 + 2])
          ++ ps.map fun q : Nat × WorkRecord => q.1 + 2) :=
      (allIdx_classifyStep currentDate res p).append_right _
    refine (h1.trans h2).trans ?_
    rw [List.append_assoc]
    exact List.Perm.refl _

theorem allIdx_analyzeAllFlags (currentDate : Int)
    (records : List WorkRecord) :
    (allIdx (analyzeAllFlags currentDate records)).Perm
      ((List.range records.length).map (· + 2)) := by
  have h := allIdx_classifyFold currentDate records.enum
    (AnalysisResults.mk records.length [] [])
  have hinit :
      allIdx (AnalysisResults.mk records.length [] []) = ([] : List Nat) :=
    rfl
  rw [hinit] at h
  have henum : (records.enum.map fun p => p.1 + 2) =
      (List.range records.length).map (· + 2) := by
    have : (records.enum.map fun p => p.1 + 2) =
        (records.enum.map Prod.fst).map (· + 2) := by
      rw [List.map_map]
      rfl
    rw [this, List.enum_map_fst]
  rw [henum] at h
  simpa using h

theorem nodup_allIdx_analyzeAllFlags (currentDate : Int)
    (records : List WorkRecord) :
    (allIdx (analyzeAllFlags currentDate records)).Nodup := by
  apply (allIdx_analyzeAllFlags currentDate records).nodup_iff.2
  exact (List.nodup_range _).map fun a b => by omega

theorem mem_allIdx_analyzeAllFlags (currentDate : Int)
    (records : List WorkRecord) (k : Nat) (hk : k < records.length) :
    k + 2 ∈ allIdx (analyzeAllFlags currentDate records) := by
  apply (allIdx_analyzeAllFlags currentDate records).mem_iff.2
  exact List.mem_map.2 ⟨k, List.mem_range.2 hk, rfl⟩

/-! ## C3 — overlap detector -/

/-- The finding identity the C3 count is keyed on: the finding implicates
exactly the records at dataframe positions `i` and `j` (record indexes
`i + 2`, `j + 2`). -/
def overlapTarget (i j : Nat) (f : BatchFinding) : Bool :=
  decide (f.affected.map (·.record_index) = [i + 2, j + 2])

/-- Spec-side qualification of the pair at positions `i < j` (claim C3):
both records exist, share a (non-null) road-category tag, neither chainage is
exactly `(0, 0)`, the closed chainage intervals overlap, and the extracted
road keys are present and equal. -/
def overlapPairQual (records : List WorkRecord) (i j : Nat) : Prop :=
  match records[i]?, records[j]? with
  | some r1, some r2 =>
    (r1.roadCategory ≠ none ∧ r1.roadCategory = r2.roadCategory)
    ∧ ¬(safeFloat r1.chainageFrom = 0 ∧ safeFloat r1.chainageTo = 0)
    ∧ ¬(safeFloat r2.chainageFrom = 0 ∧ safeFloat r2.chainageTo = 0)
    ∧ chainagesOverlap (safeFloat r1.chainageFrom) (safeFloat r1.chainageTo)
        (safeFloat r2.chainageFrom) (safeFloat r2.chainageTo)
    ∧ (extractRoadNumber r1.nameOfWork ≠ none ∧
        extractRoadNumber r1.nameOfWork = extractRoadNumber r2.nameOfWork)
  | _, _ => False

instance (records : List WorkRecord) (i j : Nat) :
    Decidable (overlapPairQual records i j) := by
  unfold overlapPairQual
  match records[i]?, records[j]? with
  | some r1, some r2 => infer_instance
  | some _, none => exact inferInstanceAs (Decidable False)
  | none, _ => exact inferInstanceAs (Decidable False)

theorem mkOverlapFinding_affected (k : String) (p1 p2 : Nat × WorkRecord) :
    (mkOverlapFinding k p1 p2).affected.map (·.record_index) =
      [p1.1 + 2, p2.1 + 2] := rfl

theorem overlapPairCheck_eq_some (p1 p2 : Nat × WorkRecord)
    (f : BatchFinding) :
    overlapPairCheck p1 p2 = some f ↔
      p1.1 < p2.1
      ∧ ¬(safeFloat p2.2.chainageFrom = 0 ∧ safeFloat p2.2.chainageTo = 0)
      ∧ chainagesOverlap (safeFloat p1.2.chainageFrom)
          (safeFloat p1.2.chainageTo) (safeFloat p2.2.chainageFrom)
          (safeFloat p2.2.chainageTo)
      ∧ ∃ k, extractRoadNumber p1.2.nameOfWork = some k
          ∧ extractRoadNumber p2.2.nameOfWork = some k
          ∧ f = mkOverlapFinding k p1 p2 := by
  unfold overlapPairCheck
  by_cases h1 : p2.1 ≤ p1.1
  · simp only [if_pos h1]
    constructor
    · intro h
      exact Option.noConfusion h
    · rintro ⟨hlt, _⟩
      exact absurd hlt (by omega)
  · simp only [if_neg h1]
    by_cases h2 : safeFloat p2.2.chainageFrom = 0 ∧
        safeFloat p2.2.chainageTo = 0
    · simp only [if_pos h2]
      constructor
      · intro h
        exact Option.noConfusion h
      · rintro ⟨_, hn2, _⟩
        exact absurd h2 hn2
    · simp only [if_neg h2]
      by_cases h3 : chainagesOverlap (safeFloat p1.2.chainageFrom)
          (safeFloat p1.2.chainageTo) (safeFloat p2.2.chainageFrom)
          (safeFloat p2.2.chainageTo)
      · simp only [if_pos h3]
        rcases hx1 : extractRoadNumber p1.2.nameOfWork with _ | k1
        · simp only [hx1]
          constructor
          · intro h
            exact Option.noConfusion h
          · rintro ⟨_, _, _, k, hk1, _⟩
            exact Option.noConfusion hk1
        · rcases hx2 : extractRoadNumber p2.2.nameOfWork with _ | k2
          · simp only [hx1, hx2]
            constructor
            · intro h
              exact Option.noConfusion h
            · rintro ⟨_, _, _, k, _, hk2, _⟩
              exact Option.noConfusion hk2
          · simp only [hx1, hx2]
            by_cases h4 : k1 = k2
            · simp only [if_pos h4]
              subst h4
              constructor
              · intro h
                cases h
                exact ⟨by omega, h2, h3, k1, rfl, rfl, rfl⟩
              · rintro ⟨_, _, _, k, hk1, _, hf⟩
                cases hk1
                rw [hf]
            · simp only [if_neg h4]
              constructor
              · intro h
                exact Option.noConfusion h
              · rintro ⟨_, _, _, k, hk1, hk2, _⟩
                injection hk1 with e1
                injection hk2 with e2
                exact absurd (e1.trans e2.symm) h4
      · simp only [if_neg h3]
        constructor
        · intro h
          exact Option.noConfusion h
        · rintro ⟨_, _, h3', _⟩
          exact absurd h3' h3

theorem mem_overlapRowScan (grp : List (Nat × WorkRecord))
    (p1 : Nat × WorkRecord) (f : BatchFinding) :
    f ∈ overlapRowScan grp p1 ↔
      ¬(safeFloat p1.2.chainageFrom = 0 ∧ safeFloat p1.2.chainageTo = 0)
      ∧ ∃ p2 ∈ grp, overlapPairCheck p1 p2 = some f := by
  unfold overlapRowScan
  by_cases h : safeFloat p1.2.chainageFrom = 0 ∧
      safeFloat p1.2.chainageTo = 0
  · simp [h]
  · simp [h, List.mem_filterMap]

theorem mem_roadWorksOf (records : List WorkRecord) (road_cat : String)
    (p : Nat × WorkRecord) :
    p ∈ roadWorksOf records road_cat ↔
      records[p.1]? = some p.2 ∧ p.2.roadCategory = some road_cat := by
  unfold roadWorksOf
  rw [List.mem_filter]
  constructor
  · rintro ⟨henum, hcat⟩
    exact ⟨List.mem_enum_iff_getElem?.1 henum, of_decide_eq_true hcat⟩
  · rintro ⟨hget, hcat⟩
    exact ⟨List.mem_enum_iff_getElem?.2 hget, decide_eq_true hcat⟩

theorem nodup_fst_roadWorksOf (records : List WorkRecord)
    (road_cat : String) :
    ((roadWorksOf records road_cat).map Prod.fst).Nodup := by
  have hsub : (roadWorksOf records road_cat).Sublist records.enum :=
    List.filter_sublist _
  exact (List.nodup_enum_map_fst records).sublist (hsub.map Prod.fst)

theorem nodup_roadWorksOf (records : List WorkRecord) (road_cat : String) :
    (roadWorksOf records road_cat).Nodup :=
  (nodup_fst_roadWorksOf records road_cat).of_map

theorem mem_checkOverlappingWorks (records : List WorkRecord)
    (f : BatchFinding) :
    f ∈ checkOverlappingWorks records ↔
      ∃ road_cat ∈ uniqueList (records.filterMap (·.roadCategory)),
        ∃ p1 ∈ roadWorksOf records road_cat,
          ¬(safeFloat p1.2.chainageFrom = 0 ∧ safeFloat p1.2.chainageTo = 0)
          ∧ ∃ p2 ∈ roadWorksOf records road_cat,
              overlapPairCheck p1 p2 = some f := by
  unfold checkOverlappingWorks overlapCatScan
  rw [List.mem_flatMap]
  constructor
  · rintro ⟨cat, hcat, hf⟩
    rw [List.mem_flatMap] at hf
    obtain ⟨p1, hp1, hf⟩ := hf
    obtain ⟨h00, p2, hp2, hpc⟩ := (mem_overlapRowScan _ _ _).1 hf
    exact ⟨cat, hcat, p1, hp1, h00, p2, hp2, hpc⟩
  · rintro ⟨cat, hcat, p1, hp1, h00, p2, hp2, hpc⟩
    refine ⟨cat, hcat, ?_⟩
    rw [List.mem_flatMap]
    exact ⟨p1, hp1, (mem_overlapRowScan _ _ _).2 ⟨h00, p2, hp2, hpc⟩⟩

/-- **C3.**  The overlap detector emits exactly one finding keyed on each
unordered pair `i < j` of records that share a road-category tag, each have
chainage not exactly `(0,0)`, whose closed chainage intervals overlap
(`¬(to1 < from2 ∨ to2 < from1)`), and whose extracted road keys are present
and equal — and no finding otherwise (in particular a pair with matching
category but unequal or unextractable keys); every emitted finding is HIGH
severity with flag id 4; and intervals touching at an endpoint count as
overlapping (`chainagesOverlap a b b c ↔ a ≤ c`). -/
theorem c3_overlap_detector (records : List WorkRecord) (i j : Nat) :
    (checkOverlappingWorks records).countP (overlapTarget i j)
      = (if i < j ∧ overlapPairQual records i j then 1 else 0)
    ∧ (checkOverlappingWorks records).all
        (fun f => f.severity == Severity.HIGH && f.flag_id == 4) = true
    ∧ (∀ a b c : ℚ, chainagesOverlap a b b c ↔ a ≤ c) := by
  refine ⟨?_, ?_, ?_⟩
  · by_cases hq : i < j ∧ overlapPairQual records i j
    · rw [if_pos hq]
      obtain ⟨hij, hqual⟩ := hq
      rcases hg1 : records[i]? with _ | r1
      · exfalso
        unfold overlapPairQual at hqual
        rw [hg1] at hqual
        exact hqual
      rcases hg2 : records[j]? with _ | r2
      · exfalso
        unfold overlapPairQual at hqual
        rw [hg1, hg2] at hqual
        exact hqual
      unfold overlapPairQual at hqual
      rw [hg1, hg2] at hqual
      obtain ⟨⟨hc1ne, hc12⟩, h001, h002, hov, hk1ne, hk12⟩ := hqual
      obtain ⟨cat, hcat1⟩ := Option.ne_none_iff_exists'.1 hc1ne
      have hcat2 : r2.roadCategory = some cat := hc12 ▸ hcat1
      obtain ⟨k, hk1⟩ := Option.ne_none_iff_exists'.1 hk1ne
      have hk2 : extractRoadNumber r2.nameOfWork = some k := hk12 ▸ hk1
      have hr1mem : r1 ∈ records := List.getElem?_mem hg1
      unfold checkOverlappingWorks
      rw [countP_flatMap']
      rw [sum_map_single' _ _ cat
        (by
          rw [count_uniqueList,
            if_pos (List.mem_filterMap.2 ⟨r1, hr1mem, hcat1⟩)])
        ?hzcat]
      case hzcat =>
        intro cat' _ hne
        apply List.countP_eq_zero.2
        intro f hf htgt
        unfold overlapCatScan at hf
        rw [List.mem_flatMap] at hf
        obtain ⟨p1, hp1, hfrow⟩ := hf
        obtain ⟨h00, p2, hp2, hpc⟩ := (mem_overlapRowScan _ _ _).1 hfrow
        obtain ⟨hlt, _, _, kk, hkk1, hkk2, hfeq⟩ :=
          (overlapPairCheck_eq_some p1 p2 f).1 hpc
        unfold overlapTarget at htgt
        have haff := of_decide_eq_true htgt
        rw [hfeq, mkOverlapFinding_affected] at haff
        simp only [List.cons.injEq, and_true] at haff
        obtain ⟨hp1i, _⟩ := haff
        obtain ⟨hp1get, hp1cat⟩ := (mem_roadWorksOf records cat' p1).1 hp1
        have hp1i' : p1.1 = i := by omega
        rw [hp1i', hg1] at hp1get
        injection hp1get with he
        rw [← he] at hp1cat
        rw [hcat1] at hp1cat
        injection hp1cat with hcc
        exact hne hcc.symm
      unfold overlapCatScan
      rw [countP_flatMap']
      rw [sum_map_single' _ _ ((i, r1) : Nat × WorkRecord)
        (List.count_eq_one_of_mem (nodup_roadWorksOf records cat)
          ((mem_roadWorksOf records cat (i, r1)).2 ⟨hg1, hcat1⟩))
        ?hzrow]
      case hzrow =>
        intro p1' hmem' hne
        apply List.countP_eq_zero.2
        intro f hf htgt
        obtain ⟨h00, p2, hp2, hpc⟩ := (mem_overlapRowScan _ _ _).1 hf
        obtain ⟨_, _, _, kk, _, _, hfeq⟩ :=
          (overlapPairCheck_eq_some _ _ _).1 hpc
        unfold overlapTarget at htgt
        have haff := of_decide_eq_true htgt
        rw [hfeq, mkOverlapFinding_affected] at haff
        simp only [List.cons.injEq, and_true] at haff
        obtain ⟨hp1i, _⟩ := haff
        have hp1i' : p1'.1 = i := by omega
        obtain ⟨hp1get, _⟩ := (mem_roadWorksOf records cat p1').1 hmem'
        rw [hp1i', hg1] at hp1get
        injection hp1get with he
        exact hne (Prod.ext hp1i' he.symm)
      unfold overlapRowScan
      rw [if_neg h001]
      rw [List.countP_filterMap]
      have key : ∀ x ∈ roadWorksOf records cat,
          ((overlapPairCheck (i, r1) x).map (overlapTarget i j)).getD false
            = true → x = (j, r2) := by
        intro x hx hqx
        rcases hpc : overlapPairCheck (i, r1) x with _ | f
        · rw [hpc] at hqx
          simp at hqx
        · rw [hpc] at hqx
          simp only [Option.map_some', Option.getD_some] at hqx
          obtain ⟨_, _, _, kk, _, _, hfeq⟩ :=
            (overlapPairCheck_eq_some _ _ _).1 hpc
          unfold overlapTarget at hqx
          have haff := of_decide_eq_true hqx
          rw [hfeq, mkOverlapFinding_affected] at haff
          simp only [List.cons.injEq, and_true] at haff
          obtain ⟨_, hxj⟩ := haff
          have hxj' : x.1 = j := by omega
          obtain ⟨hxget, _⟩ := (mem_roadWorksOf records cat x).1 hx
          rw [hxj', hg2] at hxget
          injection hxget with he
          exact Prod.ext hxj' he.symm
      rw [countP_unique _ _ (nodup_roadWorksOf records cat)
        (fun a ha b hb hqa hqb => (key a ha hqa).trans (key b hb hqb).symm)]
      rw [if_pos ?hex]
      case hex =>
        refine ⟨(j, r2), (mem_roadWorksOf records cat (j, r2)).2 ⟨hg2, hcat2⟩,
          ?_⟩
        have hpcval : overlapPairCheck (i, r1) (j, r2) =
            some (mkOverlapFinding k (i, r1) (j, r2)) :=
          (overlapPairCheck_eq_some (i, r1) (j, r2) _).2
            ⟨hij, h002, hov, k, hk1, hk2, rfl⟩
        rw [hpcval]
        simp only [Option.map_some', Option.getD_some]
        unfold overlapTarget
        exact decide_eq_true (by rw [mkOverlapFinding_affected])
    · rw [if_neg hq]
      apply List.countP_eq_zero.2
      intro f hf htgt
      obtain ⟨cat, hcat, p1, hp1, h00, p2, hp2, hpc⟩ :=
        (mem_checkOverlappingWorks records f).1 hf
      obtain ⟨hlt, h002, hov, k, hk1, hk2, hfeq⟩ :=
        (overlapPairCheck_eq_some p1 p2 f).1 hpc
      unfold overlapTarget at htgt
      have haff := of_decide_eq_true htgt
      rw [hfeq, mkOverlapFinding_affected] at haff
      simp only [List.cons.injEq, and_true] at haff
      obtain ⟨hp1i, hp2j⟩ := haff
      have hp1i' : p1.1 = i := by omega
      have hp2j' : p2.1 = j := by omega
      obtain ⟨hp1get, hp1cat⟩ := (mem_roadWorksOf records cat p1).1 hp1
      obtain ⟨hp2get, hp2cat⟩ := (mem_roadWorksOf records cat p2).1 hp2
      rw [hp1i'] at hp1get
      rw [hp2j'] at hp2get
      apply hq
      refine ⟨by omega, ?_⟩
      unfold overlapPairQual
      rw [hp1get, hp2get]
      refine ⟨⟨by rw [hp1cat]; exact Option.noConfusion,
        by rw [hp1cat, hp2cat]⟩, h00, h002, hov, ?_, ?_⟩
      · rw [hk1]
        exact Option.noConfusion
      · rw [hk1, hk2]
  · apply List.all_eq_true.2
    intro f hf
    obtain ⟨cat, _, p1, _, _, p2, _, hpc⟩ :=
      (mem_checkOverlappingWorks records f).1 hf
    obtain ⟨_, _, _, k, _, _, hfeq⟩ :=
      (overlapPairCheck_eq_some _ _ _).1 hpc
    subst hfeq
    rfl
  · intro a b c
    unfold chainagesOverlap
    simp [lt_irrefl, not_lt]

/-! ## C4 — splitting detector -/

/-- Spec-side description of a splitting group (claim C4): the records, with
their dataframe positions, that share the work-order calendar year `year`,
the road-category tag `road_cat` and the extracted road key `road_num`, each
with contract cost strictly between 0 and 10. -/
def splitGroupSpec (records : List WorkRecord) (year : Int)
    (road_cat road_num : String) : List (Nat × WorkRecord) :=
  records.enum.filter fun p =>
    yearOf p.2 = some year ∧ p.2.roadCategory = some road_cat
    ∧ extractRoadNumber p.2.nameOfWork = some road_num
    ∧ 0 < safeFloat p.2.contractCost ∧ safeFloat p.2.contractCost < 10

theorem mem_splitGroupSpec (records : List WorkRecord) (year : Int)
    (road_cat road_num : String) (p : Nat × WorkRecord) :
    p ∈ splitGroupSpec records year road_cat road_num ↔
      records[p.1]? = some p.2 ∧ yearOf p.2 = some year
      ∧ p.2.roadCategory = some road_cat
      ∧ extractRoadNumber p.2.nameOfWork = some road_num
      ∧ 0 < safeFloat p.2.contractCost
      ∧ safeFloat p.2.contractCost < 10 := by
  unfold splitGroupSpec
  rw [List.mem_filter]
  constructor
  · rintro ⟨henum, hcond⟩
    exact ⟨List.mem_enum_iff_getElem?.1 henum, of_decide_eq_true hcond⟩
  · rintro ⟨hget, hcond⟩
    exact ⟨List.mem_enum_iff_getElem?.2 hget, decide_eq_true hcond⟩

theorem splitQualFun_eq_some (p : Nat × WorkRecord)
    (q : String × SplitWork) :
    splitQualFun p = some q ↔
      extractRoadNumber p.2.nameOfWork = some q.1
      ∧ 0 < safeFloat p.2.contractCost ∧ safeFloat p.2.contractCost < 10
      ∧ q.2 = mkSplitWork p := by
  unfold splitQualFun
  rcases hx : extractRoadNumber p.2.nameOfWork with _ | rn
  · constructor
    · intro h
      exact Option.noConfusion h
    · rintro ⟨hk, _⟩
      exact Option.noConfusion hk
  · by_cases hc : 0 < safeFloat p.2.contractCost ∧
        safeFloat p.2.contractCost < 10
    · simp only [if_pos hc]
      constructor
      · intro h
        cases h
        exact ⟨rfl, hc.1, hc.2, rfl⟩
      · rintro ⟨hk, _, _, hw⟩
        injection hk with hk
        cases q
        simp only at hk hw
        rw [hk, hw]
    · simp only [if_neg hc]
      constructor
      · intro h
        exact Option.noConfusion h
      · rintro ⟨_, hc1, hc2, _⟩
        exact absurd ⟨hc1, hc2⟩ hc

theorem groupMembers_aux (year : Int) (road_cat road_num : String) :
    ∀ l : List (Nat × WorkRecord),
      ((((l.filter (fun p => yearOf p.2 = some year)).filter
          (fun p => p.2.roadCategory = some road_cat)).filterMap
          splitQualFun).filter (fun q => q.1 = road_num)).map (·.2)
      = (l.filter fun p =>
          yearOf p.2 = some year ∧ p.2.roadCategory = some road_cat
          ∧ extractRoadNumber p.2.nameOfWork = some road_num
          ∧ 0 < safeFloat p.2.contractCost
          ∧ safeFloat p.2.contractCost < 10).map mkSplitWork := by
  intro l
  induction l with
  | nil => rfl
  | cons p ps ih =>
    by_cases h1 : yearOf p.2 = some year
    · rw [List.filter_cons_of_pos (by simp only [decide_eq_true_eq]; exact h1)]
      by_cases h2 : p.2.roadCategory = some road_cat
      · rw [List.filter_cons_of_pos (by simp only [decide_eq_true_eq]; exact h2)]
        rcases hx : extractRoadNumber p.2.nameOfWork with _ | rn
        · have hfun : splitQualFun p = none := by
            unfold splitQualFun
            rw [hx]
          have hbig : ¬(yearOf p.2 = some year ∧
              p.2.roadCategory = some road_cat
              ∧ extractRoadNumber p.2.nameOfWork = some road_num
              ∧ 0 < safeFloat p.2.contractCost
              ∧ safeFloat p.2.contractCost < 10) := by
            rintro ⟨_, _, hk, _⟩
            rw [hx] at hk
            exact Option.noConfusion hk
          rw [List.filterMap_cons_none hfun,
            List.filter_cons_of_neg (by simp only [decide_eq_true_eq]; exact hbig)]
          exact ih
        · by_cases hc : 0 < safeFloat p.2.contractCost ∧
              safeFloat p.2.contractCost < 10
          · have hfun : splitQualFun p = some (rn, mkSplitWork p) := by
              unfold splitQualFun
              rw [hx]
              show (if 0 < safeFloat p.2.contractCost ∧
                  safeFloat p.2.contractCost < 10
                then some (rn, mkSplitWork p) else none) =
                some (rn, mkSplitWork p)
              rw [if_pos hc]
            rw [List.filterMap_cons_some hfun]
            by_cases hk : rn = road_num
            · have hbig : (yearOf p.2 = some year ∧
                  p.2.roadCategory = some road_cat
                  ∧ extractRoadNumber p.2.nameOfWork = some road_num
                  ∧ 0 < safeFloat p.2.contractCost
                  ∧ safeFloat p.2.contractCost < 10) :=
                ⟨h1, h2, hk ▸ hx, hc.1, hc.2⟩
              rw [List.filter_cons_of_pos (by simp only [decide_eq_true_eq]; exact hk),
                List.filter_cons_of_pos (by simp only [decide_eq_true_eq]; exact hbig),
                List.map_cons, List.map_cons, ih]
            · have hbig : ¬(yearOf p.2 = some year ∧
                  p.2.roadCategory = some road_cat
                  ∧ extractRoadNumber p.2.nameOfWork = some road_num
                  ∧ 0 < safeFloat p.2.contractCost
                  ∧ safeFloat p.2.contractCost < 10) := by
                rintro ⟨_, _, hkk, _⟩
                rw [hx] at hkk
                injection hkk with hkk
                exact hk hkk
              rw [List.filter_cons_of_neg (by simp only [decide_eq_true_eq]; exact hk),
                List.filter_cons_of_neg (by simp only [decide_eq_true_eq]; exact hbig)]
              exact ih
          · have hfun : splitQualFun p = none := by
              unfold splitQualFun
              rw [hx]
              show (if 0 < safeFloat p.2.contractCost ∧
                  safeFloat p.2.contractCost < 10
                then some (rn, mkSplitWork p) else none) = none
              rw [if_neg hc]
            have hbig : ¬(yearOf p.2 = some year ∧
                p.2.roadCategory = some road_cat
                ∧ extractRoadNumber p.2.nameOfWork = some road_num
                ∧ 0 < safeFloat p.2.contractCost
                ∧ safeFloat p.2.contractCost < 10) := by
              rintro ⟨_, _, _, hc1, hc2⟩
              exact hc ⟨hc1, hc2⟩
            rw [List.filterMap_cons_none hfun,
              List.filter_cons_of_neg (by simp only [decide_eq_true_eq]; exact hbig)]
            exact ih
      · have hbig : ¬(yearOf p.2 = some year ∧
            p.2.roadCategory = some road_cat
            ∧ extractRoadNumber p.2.nameOfWork = some road_num
            ∧ 0 < safeFloat p.2.contractCost
            ∧ safeFloat p.2.contractCost < 10) := by
          rintro ⟨_, hcat, _⟩
          exact h2 hcat
        rw [List.filter_cons_of_neg (by simp only [decide_eq_true_eq]; exact h2),
          List.filter_cons_of_neg (by simp only [decide_eq_true_eq]; exact hbig)]
        exact ih
    · have hbig : ¬(yearOf p.2 = some year ∧
          p.2.roadCategory = some road_cat
          ∧ extractRoadNumber p.2.nameOfWork = some road_num
          ∧ 0 < safeFloat p.2.contractCost
          ∧ safeFloat p.2.contractCost < 10) := by
        rintro ⟨hy, _⟩
        exact h1 hy
      rw [List.filter_cons_of_neg (by simp only [decide_eq_true_eq]; exact h1),
        List.filter_cons_of_neg (by simp only [decide_eq_true_eq]; exact hbig)]
      exact ih

/-- The code's road-key bucket is exactly the spec's group: the
`road_groups[road_num]` members are the records sharing year, category and
key with cost in `(0, 10)`. -/
theorem groupMembers_eq (records : List WorkRecord) (year : Int)
    (road_cat road_num : String) :
    groupMembers records year road_cat road_num =
      (splitGroupSpec records year road_cat road_num).map mkSplitWork :=
  groupMembers_aux year road_cat road_num records.enum

theorem groupMembers_row (records : List WorkRecord) (year : Int)
    (road_cat road_num : String) (w : SplitWork)
    (hw : w ∈ groupMembers records year road_cat road_num) :
    records[w.index]? = some w.row ∧ yearOf w.row = some year
    ∧ w.row.roadCategory = some road_cat
    ∧ extractRoadNumber w.row.nameOfWork = some road_num
    ∧ 0 < safeFloat w.row.contractCost
    ∧ safeFloat w.row.contractCost < 10 := by
  rw [groupMembers_eq] at hw
  obtain ⟨p, hp, hwp⟩ := List.mem_map.1 hw
  obtain ⟨hget, hy, hcat, hkey, hc1, hc2⟩ :=
    (mem_splitGroupSpec records year road_cat road_num p).1 hp
  subst hwp
  exact ⟨hget, hy, hcat, hkey, hc1, hc2⟩

theorem splitGroupCheck_eq (records : List WorkRecord) (year : Int)
    (road_cat road_num : String) :
    splitGroupCheck records year road_cat road_num =
      if 3 ≤ (groupMembers records year road_cat road_num).length ∧
          continuousWorks
            (sortWorks (groupMembers records year road_cat road_num)) = true
      then some (mkSplitFinding road_num year
        (sortWorks (groupMembers records year road_cat road_num)))
      else none := by
  unfold splitGroupCheck
  by_cases h1 : 3 ≤ (groupMembers records year road_cat road_num).length
  · by_cases h2 : continuousWorks
        (sortWorks (groupMembers records year road_cat road_num)) = true
    · rw [if_pos h1, if_pos h2, if_pos ⟨h1, h2⟩]
    · rw [if_pos h1, if_neg h2, if_neg (fun hc => h2 hc.2)]
  · rw [if_neg h1, if_neg (fun hc => h1 hc.1)]

theorem mem_checkSplittingOfWorks (records : List WorkRecord)
    (f : BatchFinding) :
    f ∈ checkSplittingOfWorks records ↔
      ∃ year ∈ uniqueList (records.filterMap yearOf),
        ∃ road_cat ∈ uniqueList ((records.enum.filter
            (fun p => yearOf p.2 = some year)).filterMap
            (·.2.roadCategory)),
          ∃ road_num ∈ uniqueList ((splitQual records year road_cat).map
              (·.1)),
            splitGroupCheck records year road_cat road_num = some f := by
  unfold checkSplittingOfWorks splitKeyScan
  rw [List.mem_flatMap]
  constructor
  · rintro ⟨year, hyear, hf⟩
    rw [List.mem_flatMap] at hf
    obtain ⟨road_cat, hcat, hf⟩ := hf
    obtain ⟨road_num, hnum, hcheck⟩ := List.mem_filterMap.1 hf
    exact ⟨year, hyear, road_cat, hcat, road_num, hnum, hcheck⟩
  · rintro ⟨year, hyear, road_cat, hcat, road_num, hnum, hcheck⟩
    refine ⟨year, hyear, ?_⟩
    rw [List.mem_flatMap]
    exact ⟨road_cat, hcat, List.mem_filterMap.2 ⟨road_num, hnum, hcheck⟩⟩

theorem sortWorks_perm (l : List SplitWork) : (sortWorks l).Perm l :=
  List.perm_insertionSort splitWorkLE l

/-- Two road-key buckets (same year) whose sorted affected-record listings
coincide — the first nonempty — sit in the same road category: the shared
head record index pins down a single source record, whose category tag is
unique. -/
theorem groupMembers_cat_eq (records : List WorkRecord) (year : Int)
    (c1 c2 k1 k2 : String)
    (hne : groupMembers records year c1 k1 ≠ [])
    (haff : (sortWorks (groupMembers records year c1 k1)).map toAffected =
        (sortWorks (groupMembers records year c2 k2)).map toAffected) :
    c1 = c2 := by
  have hs1ne : sortWorks (groupMembers records year c1 k1) ≠ [] := by
    intro h0
    apply hne
    have hp := sortWorks_perm (groupMembers records year c1 k1)
    rw [h0] at hp
    have := hp.length_eq
    simp only [List.length_nil] at this
    exact List.eq_nil_of_length_eq_zero this.symm
  obtain ⟨w1, t1, hsort1⟩ := List.exists_cons_of_ne_nil hs1ne
  rw [hsort1] at haff
  rcases hsort2 : sortWorks (groupMembers records year c2 k2) with _ | ⟨w2, t2⟩
  · rw [hsort2] at haff
    exact absurd haff (by simp)
  · rw [hsort2] at haff
    simp only [List.map_cons, List.cons.injEq] at haff
    obtain ⟨haw, _⟩ := haff
    have hw1 : w1 ∈ groupMembers records year c1 k1 :=
      (sortWorks_perm _).subset (hsort1 ▸ List.mem_cons_self _ _)
    have hw2 : w2 ∈ groupMembers records year c2 k2 :=
      (sortWorks_perm _).subset (hsort2 ▸ List.mem_cons_self _ _)
    obtain ⟨hrow1, _, hcat1, _⟩ := groupMembers_row records year c1 k1 w1 hw1
    obtain ⟨hrow2, _, hcat2, _⟩ := groupMembers_row records year c2 k2 w2 hw2
    have hidx : w1.index = w2.index := by
      have h2 := congrArg AffectedRec.record_index haw
      simp only [toAffected] at h2
      omega
    rw [hidx, hrow2] at hrow1
    injection hrow1 with hrow
    rw [← hrow] at hcat1
    rw [hcat2] at hcat1
    injection hcat1 with hcc
    exact hcc.symm

/-- The continuity walk accepts exactly the lists whose every adjacent gap
`next.from − cur.to` is at most 5 — so a single gap above 5 rejects the
whole group. -/
theorem continuousWorks_iff :
    ∀ ws : List SplitWork, continuousWorks ws = true ↔
      List.Chain' (fun a b => b.fromCh - a.toCh ≤ 5) ws := by
  intro ws
  induction ws with
  | nil => simp [continuousWorks]
  | cons a t ih =>
    cases t with
    | nil => simp [continuousWorks]
    | cons b rest =>
      unfold continuousWorks
      rw [List.chain'_cons]
      by_cases h : 5 < b.fromCh - a.toCh
      · rw [if_pos h]
        constructor
        · intro hfalse
          exact absurd hfalse Bool.false_ne_true
        · rintro ⟨hab, _⟩
          exact absurd hab (not_le.2 h)
      · rw [if_neg h]
        rw [ih]
        constructor
        · intro hch
          exact ⟨le_of_not_lt h, hch⟩
        · rintro ⟨_, hch⟩
          exact hch

/-- The splitting finding the detector would emit for the
`(year, road category, road key)` bucket. -/
def splitFindingOf (records : List WorkRecord) (year : Int)
    (road_cat road_num : String) : BatchFinding :=
  mkSplitFinding road_num year
    (sortWorks (groupMembers records year road_cat road_num))

theorem mem_splitYearScan (records : List WorkRecord) (year : Int)
    (f : BatchFinding) :
    f ∈ (uniqueList ((records.enum.filter
          (fun p => yearOf p.2 = some year)).filterMap
          (·.2.roadCategory))).flatMap (splitKeyScan records year) ↔
      ∃ road_cat ∈ uniqueList ((records.enum.filter
          (fun p => yearOf p.2 = some year)).filterMap (·.2.roadCategory)),
        ∃ road_num ∈ uniqueList ((splitQual records year road_cat).map
            (·.1)),
          splitGroupCheck records year road_cat road_num = some f := by
  rw [List.mem_flatMap]
  constructor
  · rintro ⟨road_cat, hcat, hf⟩
    obtain ⟨road_num, hnum, hcheck⟩ := List.mem_filterMap.1 hf
    exact ⟨road_cat, hcat, road_num, hnum, hcheck⟩
  · rintro ⟨road_cat, hcat, road_num, hnum, hcheck⟩
    exact ⟨road_cat, hcat, List.mem_filterMap.2 ⟨road_num, hnum, hcheck⟩⟩

theorem splitGroupCheck_some_inv (records : List WorkRecord) (year : Int)
    (road_cat road_num : String) (f : BatchFinding)
    (hch : splitGroupCheck records year road_cat road_num = some f) :
    f = mkSplitFinding road_num year
        (sortWorks (groupMembers records year road_cat road_num))
    ∧ 3 ≤ (groupMembers records year road_cat road_num).length
    ∧ continuousWorks
        (sortWorks (groupMembers records year road_cat road_num)) = true := by
  rw [splitGroupCheck_eq] at hch
  by_cases hC : 3 ≤ (groupMembers records year road_cat road_num).length ∧
      continuousWorks
        (sortWorks (groupMembers records year road_cat road_num)) = true
  · rw [if_pos hC] at hch
    injection hch with hch
    exact ⟨hch.symm, hC.1, hC.2⟩
  · rw [if_neg hC] at hch
    exact Option.noConfusion hch

/-- A cell of the splitting scan that emits exactly the finding of the
`(year, road_cat, road_num)` bucket must be that bucket (the year and road
key are in the finding, and the affected listing pins down the category),
and that bucket qualifies. -/
theorem splitFinding_cell_eq (records : List WorkRecord) (year : Int)
    (road_cat road_num : String) (y' : Int) (c' k' : String)
    (f : BatchFinding)
    (hch : splitGroupCheck records y' c' k' = some f)
    (hfF : f = splitFindingOf records year road_cat road_num) :
    y' = year ∧ k' = road_num ∧ c' = road_cat
    ∧ 3 ≤ (groupMembers records year road_cat road_num).length
    ∧ continuousWorks
        (sortWorks (groupMembers records year road_cat road_num)) = true := by
  obtain ⟨hfeq, hlen, hcont⟩ := splitGroupCheck_some_inv records y' c' k' f hch
  have hEq : mkSplitFinding k' y' (sortWorks (groupMembers records y' c' k'))
      = splitFindingOf records year road_cat road_num := by
    rw [← hfeq]
    exact hfF
  have hyy : some y' = some year := congrArg BatchFinding.descYear hEq
  injection hyy with hy1
  have hk1 : k' = road_num := congrArg BatchFinding.descRoadKey hEq
  have haf : (sortWorks (groupMembers records y' c' k')).map toAffected =
      (sortWorks (groupMembers records year road_cat road_num)).map
        toAffected := congrArg BatchFinding.affected hEq
  have hne : groupMembers records y' c' k' ≠ [] :=
    List.length_pos.1 (by omega)
  rw [hy1, hk1] at haf hne hlen hcont
  have hc1 : c' = road_cat :=
    groupMembers_cat_eq records year c' road_cat road_num road_num hne haf
  rw [hc1] at hlen hcont
  exact ⟨hy1, hk1, hc1, hlen, hcont⟩

/-- **C4.**  The splitting detector emits exactly one finding — the finding
of the bucket, listing every member with its cost and chainage and the
summed group cost — for each `(year, category, road key)` bucket of at least
3 records whose chainage-from-sorted adjacent gaps are all at most 5, and no
finding for a bucket with fewer than 3 records or any adjacent gap above 5
(all-or-nothing); the bucket is exactly the records sharing the work-order
year, the category tag and the extracted road key with contract cost
strictly between 0 and 10; every emitted finding is HIGH severity with flag
id 6. -/
theorem c4_splitting_detector (records : List WorkRecord) (year : Int)
    (road_cat road_num : String) :
    (checkSplittingOfWorks records).countP
        (fun f => f = splitFindingOf records year road_cat road_num)
      = (if 3 ≤ (groupMembers records year road_cat road_num).length ∧
            continuousWorks (sortWorks
              (groupMembers records year road_cat road_num)) = true
         then 1 else 0)
    ∧ groupMembers records year road_cat road_num =
        (splitGroupSpec records year road_cat road_num).map mkSplitWork
    ∧ (checkSplittingOfWorks records).all
        (fun f => f.severity == Severity.HIGH && f.flag_id == 6) = true
    ∧ (∀ ws : List SplitWork, continuousWorks ws = true ↔
        List.Chain' (fun a b => b.fromCh - a.toCh ≤ 5) ws)
    ∧ (splitFindingOf records year road_cat road_num).affected =
        (sortWorks (groupMembers records year road_cat road_num)).map
          toAffected
    ∧ (splitFindingOf records year road_cat road_num).total_cost =
        some (((sortWorks (groupMembers records year road_cat
          road_num)).map (·.contract_cost)).sum) := by
  refine ⟨?_, groupMembers_eq records year road_cat road_num, ?_,
    continuousWorks_iff, rfl, rfl⟩
  · by_cases hq : 3 ≤ (groupMembers records year road_cat road_num).length ∧
        continuousWorks
          (sortWorks (groupMembers records year road_cat road_num)) = true
    · rw [if_pos hq]
      obtain ⟨hlen3, hcont⟩ := hq
      have hmemne : groupMembers records year road_cat road_num ≠ [] :=
        List.length_pos.1 (by omega)
      have hspec_ne : splitGroupSpec records year road_cat road_num ≠ [] := by
        intro h0
        apply hmemne
        rw [groupMembers_eq, h0]
        rfl
      obtain ⟨p₀, hp₀⟩ := List.exists_mem_of_ne_nil _ hspec_ne
      obtain ⟨hget₀, hy₀, hcat₀, hkey₀, hc₀1, hc₀2⟩ :=
        (mem_splitGroupSpec records year road_cat road_num p₀).1 hp₀
      have hp₀rec : p₀.2 ∈ records := List.getElem?_mem hget₀
      have hp₀enum : p₀ ∈ records.enum := List.mem_enum_iff_getElem?.2 hget₀
      have hchk : splitGroupCheck records year road_cat road_num =
          some (splitFindingOf records year road_cat road_num) := by
        rw [splitGroupCheck_eq, if_pos ⟨hlen3, hcont⟩]
        rfl
      unfold checkSplittingOfWorks
      rw [countP_flatMap']
      rw [sum_map_single' _ _ year
        (by
          rw [count_uniqueList,
            if_pos (List.mem_filterMap.2 ⟨p₀.2, hp₀rec, hy₀⟩)])
        ?hzyear]
      case hzyear =>
        intro y' _ hne
        apply List.countP_eq_zero.2
        intro f hf htgt
        have hfF := of_decide_eq_true htgt
        obtain ⟨c', _, k', _, hch⟩ := (mem_splitYearScan records y' f).1 hf
        obtain ⟨hy', _⟩ := splitFinding_cell_eq records year road_cat
          road_num y' c' k' f hch hfF
        exact hne hy'
      have hgoal : ((uniqueList ((records.enum.filter
          (fun p => yearOf p.2 = some year)).filterMap
          (·.2.roadCategory))).flatMap (splitKeyScan records year)).countP
          (fun f => f = splitFindingOf records year road_cat road_num)
          = 1 := by
        rw [countP_flatMap']
        rw [sum_map_single' _ _ road_cat
          (by
            rw [count_uniqueList, if_pos (List.mem_filterMap.2
              ⟨p₀, List.mem_filter.2 ⟨hp₀enum, decide_eq_true hy₀⟩,
                hcat₀⟩)])
          ?hzcat]
        case hzcat =>
          intro c' _ hne
          apply List.countP_eq_zero.2
          intro f hf htgt
          have hfF := of_decide_eq_true htgt
          obtain ⟨k', _, hch⟩ := List.mem_filterMap.1
            (show f ∈ (uniqueList ((splitQual records year c').map
              (·.1))).filterMap (splitGroupCheck records year c') from hf)
          obtain ⟨_, _, hc', _⟩ := splitFinding_cell_eq records year
            road_cat road_num year c' k' f hch hfF
          exact hne hc'
        show ((uniqueList ((splitQual records year road_cat).map
          (·.1))).filterMap (splitGroupCheck records year road_cat)).countP
          (fun f => f = splitFindingOf records year road_cat road_num) = 1
        rw [List.countP_filterMap]
        rw [countP_unique _ _ (uniqueList_nodup _) ?huni]
        case huni =>
          intro a ha b hb hqa hqb
          have hkey : ∀ c ∈ uniqueList ((splitQual records year
              road_cat).map (·.1)),
              ((splitGroupCheck records year road_cat c).map
                (fun f => decide (f = splitFindingOf records year road_cat
                  road_num))).getD false = true → c = road_num := by
            intro c _ hqc
            rcases hpc : splitGroupCheck records year road_cat c with _ | f
            · rw [hpc] at hqc
              simp at hqc
            · rw [hpc] at hqc
              simp only [Option.map_some', Option.getD_some] at hqc
              have hfF := of_decide_eq_true hqc
              obtain ⟨_, hk', _⟩ := splitFinding_cell_eq records year
                road_cat road_num year road_cat c f hpc hfF
              exact hk'
          exact (hkey a ha hqa).trans (hkey b hb hqb).symm
        rw [if_pos ?hex]
        case hex =>
          refine ⟨road_num, ?_, ?_⟩
          · rw [mem_uniqueList]
            refine List.mem_map.2 ⟨(road_num, mkSplitWork p₀), ?_, rfl⟩
            unfold splitQual
            refine List.mem_filterMap.2 ⟨p₀, ?_, ?_⟩
            · exact List.mem_filter.2
                ⟨List.mem_filter.2 ⟨hp₀enum, decide_eq_true hy₀⟩,
                  decide_eq_true hcat₀⟩
            · exact (splitQualFun_eq_some p₀ (road_num, mkSplitWork p₀)).2
                ⟨hkey₀, hc₀1, hc₀2, rfl⟩
          · rw [hchk]
            simp only [Option.map_some', Option.getD_some]
            exact decide_eq_true trivial
      exact hgoal
    · rw [if_neg hq]
      apply List.countP_eq_zero.2
      intro f hf htgt
      have hfF := of_decide_eq_true htgt
      obtain ⟨y', _, c', _, k', _, hch⟩ :=
        (mem_checkSplittingOfWorks records f).1 hf
      obtain ⟨_, _, _, hlen, hcont⟩ := splitFinding_cell_eq records year
        road_cat road_num y' c' k' f hch hfF
      exact hq ⟨hlen, hcont⟩
  · apply List.all_eq_true.2
    intro f hf
    obtain ⟨y', _, c', _, k', _, hch⟩ :=
      (mem_checkSplittingOfWorks records f).1 hf
    obtain ⟨hfeq, _⟩ := splitGroupCheck_some_inv records y' c' k' f hch
    subst hfeq
    rfl

/-! ## Sample data for witnesses -/

/-- A record the excess-expenditure rule flags (expenditure 20 % over
approval): red after the single-record phase. -/
def wRecRed : WorkRecord :=
  { budgetItemNo := "B1"
    nameOfWork := "Improvement SH-1 Km 0 to 1"
    roadCategory := some "SH-1"
    aaCost := some 100
    contractCost := none
    totalExpenditure := some 120
    workOrderDate := none
    timeLimitDays := none
    physicalProgress := none
    chainageFrom := none
    chainageTo := none }

/-- A record no single-record rule flags: green after the single-record
phase. -/
def wRecGreen : WorkRecord :=
  { budgetItemNo := "B2"
    nameOfWork := "Improvement SH-1 Km 1 to 2"
    roadCategory := some "SH-1"
    aaCost := some 100
    contractCost := none
    totalExpenditure := some 100
    workOrderDate := none
    timeLimitDays := none
    physicalProgress := none
    chainageFrom := none
    chainageTo := none }

/-- A batch finding implicating both sample records (indexes 2 and 3). -/
def wBf1 : BatchFinding :=
  { flag_id := 4
    flag_name := "Overlapping of Work"
    severity := .HIGH
    descRoadKey := "SH1"
    descYear := none
    affected :=
      [{ record_index := 3, budget_item_no := "B2", contract_cost_lakh := none,
         chainage_from := 0, chainage_to := 1 },
       { record_index := 2, budget_item_no := "B1", contract_cost_lakh := none,
         chainage_from := 0, chainage_to := 1 }]
    total_cost := none }

/-- A second, distinct batch finding implicating record index 3. -/
def wBf2 : BatchFinding :=
  { flag_id := 6
    flag_name := "Splitting of Work"
    severity := .HIGH
    descRoadKey := "SH1"
    descYear := some 2022
    affected :=
      [{ record_index := 3, budget_item_no := "B2",
         contract_cost_lakh := some 5, chainage_from := 0,
         chainage_to := 1 }]
    total_cost := some 5 }

/-! ## C1 — partition invariant of the run -/

/-- **C1.**  For every input record sequence and every run of the engine
(single-record evaluation followed by the batch-finding merge, the merged
batch findings split as an arbitrary prefix `l₁` processed first and suffix
`l₂` processed after): `total_records` is the number of records,
`|red_flagged| + |green_flagged| = total_records`, every record index sits in
exactly one of the two partitions, and an index red after the prefix `l₁` is
still red — and not green — after the whole run. -/
theorem c1_partition_invariant (currentDate : Int) (records : List WorkRecord)
    (l₁ l₂ : List BatchFinding) (k i : Nat)
    (hk : k < records.length)
    (hi : i ∈ redIdx (runEngine currentDate records l₁)) :
    (runEngine currentDate records (l₁ ++ l₂)).total_records = records.length
    ∧ (redIdx (runEngine currentDate records (l₁ ++ l₂))).length
        + (greenIdx (runEngine currentDate records (l₁ ++ l₂))).length
        = (runEngine currentDate records (l₁ ++ l₂)).total_records
    ∧ (k + 2 ∈ redIdx (runEngine currentDate records (l₁ ++ l₂)) ↔
        k + 2 ∉ greenIdx (runEngine currentDate records (l₁ ++ l₂)))
    ∧ i ∈ redIdx (runEngine currentDate records (l₁ ++ l₂))
    ∧ i ∉ greenIdx (runEngine currentDate records (l₁ ++ l₂)) := by
  have hnd0 : (allIdx (analyzeAllFlags currentDate records)).Nodup :=
    nodup_allIdx_analyzeAllFlags currentDate records
  have hperm : (allIdx (runEngine currentDate records (l₁ ++ l₂))).Perm
      ((List.range records.length).map (· + 2)) :=
    (allIdx_mergeAll (l₁ ++ l₂) _).trans
      (allIdx_analyzeAllFlags currentDate records)
  have hndfin : (allIdx (runEngine currentDate records (l₁ ++ l₂))).Nodup :=
    nodup_allIdx_mergeAll _ _ hnd0
  have hdisj : ∀ j, j ∈ redIdx (runEngine currentDate records (l₁ ++ l₂)) →
      j ∉ greenIdx (runEngine currentDate records (l₁ ++ l₂)) := by
    intro j hj hj'
    exact (List.nodup_append.1 hndfin).2.2 hj hj'
  have htotal : (runEngine currentDate records (l₁ ++ l₂)).total_records =
      records.length := by
    show (mergeAll (analyzeAllFlags currentDate records)
      (l₁ ++ l₂)).total_records = records.length
    rw [mergeAll_total, analyzeAllFlags_total]
  refine ⟨htotal, ?_, ?_, ?_⟩
  · rw [htotal]
    have hlen := hperm.length_eq
    rw [List.length_map, List.length_range] at hlen
    have : (allIdx (runEngine currentDate records (l₁ ++ l₂))).length =
        (redIdx (runEngine currentDate records (l₁ ++ l₂))).length +
        (greenIdx (runEngine currentDate records (l₁ ++ l₂))).length := by
      unfold allIdx
      rw [List.length_append]
    omega
  · have hmem : k + 2 ∈ allIdx (runEngine currentDate records (l₁ ++ l₂)) :=
      hperm.mem_iff.2 (List.mem_map.2 ⟨k, List.mem_range.2 hk, rfl⟩)
    constructor
    · intro hr
      exact hdisj _ hr
    · intro hg
      rcases List.mem_append.1 hmem with hr | hg'
      · exact hr
      · exact absurd hg' hg
  · have hchar := (mem_redIdx_mergeAll i l₁
      (analyzeAllFlags currentDate records) hnd0).1 hi
    have hin : i ∈ redIdx (runEngine currentDate records (l₁ ++ l₂)) := by
      apply (mem_redIdx_mergeAll i (l₁ ++ l₂)
        (analyzeAllFlags currentDate records) hnd0).2
      rcases hchar with h | ⟨⟨bf, hbf, hiaff⟩, hg⟩
      · exact Or.inl h
      · exact Or.inr ⟨⟨bf, List.mem_append_left _ hbf, hiaff⟩, hg⟩
    exact ⟨hin, hdisj _ hin⟩

/-- Witness for C1 at a concrete run: two records (one red, one green after
the single-record phase), no prefix findings, one merged batch finding. -/
theorem c1_partition_invariant_witness :
    (runEngine 0 [wRecRed, wRecGreen] ([] ++ [wBf1])).total_records =
        [wRecRed, wRecGreen].length
    ∧ (redIdx (runEngine 0 [wRecRed, wRecGreen] ([] ++ [wBf1]))).length
        + (greenIdx (runEngine 0 [wRecRed, wRecGreen] ([] ++ [wBf1]))).length
        = (runEngine 0 [wRecRed, wRecGreen] ([] ++ [wBf1])).total_records
    ∧ (0 + 2 ∈ redIdx (runEngine 0 [wRecRed, wRecGreen] ([] ++ [wBf1])) ↔
        0 + 2 ∉ greenIdx (runEngine 0 [wRecRed, wRecGreen] ([] ++ [wBf1])))
    ∧ 2 ∈ redIdx (runEngine 0 [wRecRed, wRecGreen] ([] ++ [wBf1]))
    ∧ 2 ∉ greenIdx (runEngine 0 [wRecRed, wRecGreen] ([] ++ [wBf1])) :=
  c1_partition_invariant 0 [wRecRed, wRecGreen] [] [wBf1] 0 2
    (by decide) (by decide)

/-! ## C2 — promotion idempotence machinery -/

/-- `ri` is red and every red entry for `ri` already carries the flag `x`. -/
def redFlagsProp (x : RecordFlag) (ri : Nat) (res : AnalysisResults) : Prop :=
  ri ∈ redIdx res ∧
    ∀ e ∈ res.red_flagged, e.record_index = ri → x ∈ e.flags

theorem applyToRed_flags_mono (x : RecordFlag) (ri r : Nat)
    (bf : BatchFinding) :
    ∀ l : List RedEntry,
      (∀ e ∈ l, e.record_index = ri → x ∈ e.flags) →
      ∀ e ∈ applyToRed r bf l, e.record_index = ri → x ∈ e.flags := by
  intro l
  induction l with
  | nil => intro _ e he; simp [applyToRed] at he
  | cons e0 es ih =>
    intro hl e he hei
    unfold applyToRed at he
    by_cases h0 : e0.record_index = r
    · rw [if_pos h0] at he
      rcases List.mem_cons.1 he with rfl | hes
      · have hx : x ∈ e0.flags :=
          hl e0 (List.mem_cons_self e0 es) hei
        exact List.mem_append_left _ hx
      · exact hl e (List.mem_cons_of_mem _ hes) hei
    · rw [if_neg h0] at he
      rcases List.mem_cons.1 he with rfl | hes
      · exact hl e (List.mem_cons_self e es) hei
      · exact ih (fun e' he' => hl e' (List.mem_cons_of_mem _ he')) e hes hei

theorem applyToRed_adds (ri : Nat) (bf : BatchFinding) :
    ∀ l : List RedEntry, (l.map (·.record_index)).Nodup →
      ∀ e ∈ applyToRed ri bf l, e.record_index = ri →
        RecordFlag.batch bf ∈ e.flags := by
  intro l
  induction l with
  | nil => intro _ e he; simp [applyToRed] at he
  | cons e0 es ih =>
    intro hnd e he hei
    have hnd' := List.nodup_cons.1 hnd
    unfold applyToRed at he
    by_cases h0 : e0.record_index = ri
    · rw [if_pos h0] at he
      rcases List.mem_cons.1 he with rfl | hes
      · exact List.mem_append_right _ (List.mem_singleton.2 rfl)
      · exact absurd (List.mem_map.2 ⟨e, hes, hei.trans h0.symm⟩) hnd'.1
    · rw [if_neg h0] at he
      rcases List.mem_cons.1 he with rfl | hes
      · exact absurd hei h0
      · exact ih hnd'.2 e hes hei

theorem redFlagsProp_mergeOne (x : RecordFlag) (ri r : Nat)
    (bf : BatchFinding) (res : AnalysisResults)
    (hq : redFlagsProp x ri res) :
    redFlagsProp x ri (mergeOne res r bf) := by
  obtain ⟨hmem, hflags⟩ := hq
  match h : res.red_flagged.any (fun e => e.record_index = r) with
  | true =>
    rw [mergeOne_eq_append res r bf h]
    constructor
    · show ri ∈ (applyToRed r bf res.red_flagged).map (·.record_index)
      rw [applyToRed_map_index]
      exact hmem
    · exact applyToRed_flags_mono x ri r bf res.red_flagged hflags
  | false =>
    match hfg : findGreen r res.green_flagged with
    | some (g, rest) =>
      rw [mergeOne_eq_promote res r bf g rest h hfg]
      obtain ⟨hgi, _⟩ := findGreen_some r res.green_flagged g rest hfg
      have hrne : r ≠ ri := by
        intro hre
        subst hre
        have h2 := (any_index_iff res.red_flagged r).2 hmem
        rw [h] at h2
        exact Bool.false_ne_true h2
      constructor
      · show ri ∈ (res.red_flagged ++ [promoteEntry g bf]).map
          (·.record_index)
        rw [List.map_append]
        exact List.mem_append_left _ hmem
      · intro e he hei
        rcases List.mem_append.1 he with hes | hsing
        · exact hflags e hes hei
        · rcases List.mem_singleton.1 hsing with rfl
          exact absurd (hei.symm.trans (hgi.symm ▸ rfl) : ri = r)
            (fun hh => hrne hh.symm)
    | none =>
      rw [mergeOne_eq_skip res r bf h hfg]
      exact ⟨hmem, hflags⟩

theorem redFlagsProp_mergeFold (x : RecordFlag) (ri : Nat)
    (bf : BatchFinding) :
    ∀ (ris : List Nat) (res : AnalysisResults), redFlagsProp x ri res →
      redFlagsProp x ri (ris.foldl (fun r i => mergeOne r i bf) res) := by
  intro ris
  induction ris with
  | nil => intro res hq; exact hq
  | cons r rs ih =>
    intro res hq
    rw [List.foldl_cons]
    exact ih (mergeOne res r bf) (redFlagsProp_mergeOne x ri r bf res hq)

theorem redFlagsProp_mergeBatch (x : RecordFlag) (ri : Nat)
    (bf : BatchFinding) (res : AnalysisResults) (hq : redFlagsProp x ri res) :
    redFlagsProp x ri (mergeBatch res bf) :=
  redFlagsProp_mergeFold x ri bf bf.affectedIndexes res hq

theorem redFlagsProp_mergeAll (x : RecordFlag) (ri : Nat) :
    ∀ (bfs : List BatchFinding) (res : AnalysisResults),
      redFlagsProp x ri res → redFlagsProp x ri (mergeAll res bfs) := by
  intro bfs
  induction bfs with
  | nil => intro res hq; exact hq
  | cons b rest ih =>
    intro res hq
    exact ih (mergeBatch res b) (redFlagsProp_mergeBatch x ri b res hq)

theorem redFlagsProp_establish_mergeFold (ri : Nat) (bf : BatchFinding) :
    ∀ (ris : List Nat) (res : AnalysisResults), (allIdx res).Nodup →
      ri ∈ ris → ri ∈ allIdx res →
      redFlagsProp (RecordFlag.batch bf) ri
        (ris.foldl (fun r i => mergeOne r i bf) res) := by
  intro ris
  induction ris with
  | nil => intro res _ hmem _; simp at hmem
  | cons r rs ih =>
    intro res hnd hmem hall
    rw [List.foldl_cons]
    by_cases hr : r = ri
    · subst hr
      have hq : redFlagsProp (RecordFlag.batch bf) r (mergeOne res r bf) := by
        match h : res.red_flagged.any (fun e => e.record_index = r) with
        | true =>
          rw [mergeOne_eq_append res r bf h]
          have hred : r ∈ redIdx res := (any_index_iff _ _).1 h
          constructor
          · show r ∈ (applyToRed r bf res.red_flagged).map (·.record_index)
            rw [applyToRed_map_index]
            exact hred
          · exact applyToRed_adds r bf res.red_flagged
              (List.Nodup.of_append_left hnd)
        | false =>
          have hnred : r ∉ redIdx res := by
            intro hm
            have h2 := (any_index_iff res.red_flagged r).2 hm
            rw [h] at h2
            exact Bool.false_ne_true h2
          have hgreen : r ∈ greenIdx res := by
            rcases List.mem_append.1 hall with hm | hm
            · exact absurd hm hnred
            · exact hm
          obtain ⟨g, rest, hfg⟩ :=
            findGreen_isSome r res.green_flagged hgreen
          rw [mergeOne_eq_promote res r bf g rest h hfg]
          obtain ⟨hgi, _⟩ := findGreen_some r res.green_flagged g rest hfg
          constructor
          · show r ∈ (res.red_flagged ++ [promoteEntry g bf]).map
              (·.record_index)
            rw [List.map_append]
            refine List.mem_append_right _ ?_
            simp [promoteEntry, hgi]
          · intro e he hei
            rcases List.mem_append.1 he with hes | hsing
            · exact absurd (List.mem_map.2 ⟨e, hes, hei⟩) hnred
            · rcases List.mem_singleton.1 hsing with rfl
              show RecordFlag.batch bf ∈ [RecordFlag.batch bf]
              exact List.mem_singleton.2 rfl
      exact redFlagsProp_mergeFold (RecordFlag.batch bf) r bf rs
        (mergeOne res r bf) hq
    · have hmem' : ri ∈ rs := by
        rcases List.mem_cons.1 hmem with he | hm
        · exact absurd he.symm hr
        · exact hm
      exact ih (mergeOne res r bf) (nodup_allIdx_mergeOne res r bf hnd)
        hmem' ((allIdx_mergeOne res r bf).mem_iff.2 hall)

theorem redFlagsProp_establish_mergeAll (ri : Nat) (bf : BatchFinding) :
    ∀ (bfs : List BatchFinding) (res : AnalysisResults), (allIdx res).Nodup →
      bf ∈ bfs → ri ∈ bf.affectedIndexes → ri ∈ allIdx res →
      redFlagsProp (RecordFlag.batch bf) ri (mergeAll res bfs) := by
  intro bfs
  induction bfs with
  | nil => intro res _ hbf; simp at hbf
  | cons b rest ih =>
    intro res hnd hbf haff hall
    by_cases hb : b = bf
    · subst hb
      have hq : redFlagsProp (RecordFlag.batch b) ri (mergeBatch res b) :=
        redFlagsProp_establish_mergeFold ri b b.affectedIndexes res hnd
          haff hall
      exact redFlagsProp_mergeAll (RecordFlag.batch b) ri rest
        (mergeBatch res b) hq
    · have hbf' : bf ∈ rest := by
        rcases List.mem_cons.1 hbf with he | hm
        · exact absurd he.symm hb
        · exact hm
      exact ih (mergeBatch res b)
        ((allIdx_mergeBatch res b).nodup_iff.2 hnd) hbf' haff
        ((allIdx_mergeBatch res b).mem_iff.2 hall)

theorem countP_red_index (l : List RedEntry) (ri : Nat) :
    l.countP (fun e => e.record_index = ri) =
      (l.map (·.record_index)).count ri := by
  rw [List.count_eq_countP, List.countP_map]
  apply List.countP_congr
  intro e _
  simp

/-- **C2.**  A record initially green that is implicated by two or more
distinct batch findings appears in `red_flagged` exactly once after the
merge; its `flags` list contains every batch finding that implicates it; and
the final red/green index partition does not depend on the order in which the
batch findings are processed. -/
theorem c2_promotion_idempotent (currentDate : Int)
    (records : List WorkRecord) (bfs bfs' : List BatchFinding) (ri : Nat)
    (bf : BatchFinding) (e : RedEntry)
    (hgreen : ri ∈ greenIdx (analyzeAllFlags currentDate records))
    (hperm : bfs.Perm bfs')
    (hbf : bf ∈ bfs) (haff : ri ∈ bf.affectedIndexes)
    (_htwo : ∃ b1 ∈ bfs, ∃ b2 ∈ bfs, b1 ≠ b2 ∧ ri ∈ b1.affectedIndexes ∧
      ri ∈ b2.affectedIndexes)
    (he : e ∈ (runEngine currentDate records bfs).red_flagged)
    (hei : e.record_index = ri) :
    (runEngine currentDate records bfs).red_flagged.countP
        (fun en => en.record_index = ri) = 1
    ∧ RecordFlag.batch bf ∈ e.flags
    ∧ (∀ j, j ∈ redIdx (runEngine currentDate records bfs) ↔
        j ∈ redIdx (runEngine currentDate records bfs'))
    ∧ (∀ j, j ∈ greenIdx (runEngine currentDate records bfs) ↔
        j ∈ greenIdx (runEngine currentDate records bfs')) := by
  have hnd0 : (allIdx (analyzeAllFlags currentDate records)).Nodup :=
    nodup_allIdx_analyzeAllFlags currentDate records
  have hall : ri ∈ allIdx (analyzeAllFlags currentDate records) :=
    List.mem_append_right _ hgreen
  have hq : redFlagsProp (RecordFlag.batch bf) ri
      (runEngine currentDate records bfs) :=
    redFlagsProp_establish_mergeAll ri bf bfs
      (analyzeAllFlags currentDate records) hnd0 hbf haff hall
  have hndfin : (allIdx (runEngine currentDate records bfs)).Nodup :=
    nodup_allIdx_mergeAll bfs _ hnd0
  have hex : ∀ j, (∃ b ∈ bfs, j ∈ b.affectedIndexes) ↔
      (∃ b ∈ bfs', j ∈ b.affectedIndexes) := by
    intro j
    constructor
    · rintro ⟨b, hb, hj⟩
      exact ⟨b, hperm.mem_iff.1 hb, hj⟩
    · rintro ⟨b, hb, hj⟩
      exact ⟨b, hperm.mem_iff.2 hb, hj⟩
  refine ⟨?_, hq.2 e he hei, ?_, ?_⟩
  · rw [countP_red_index]
    exact List.count_eq_one_of_mem (List.Nodup.of_append_left hndfin) hq.1
  · intro j
    show j ∈ redIdx (mergeAll (analyzeAllFlags currentDate records) bfs) ↔
      j ∈ redIdx (mergeAll (analyzeAllFlags currentDate records) bfs')
    rw [mem_redIdx_mergeAll j bfs _ hnd0, mem_redIdx_mergeAll j bfs' _ hnd0,
      hex j]
  · intro j
    show j ∈ greenIdx (mergeAll (analyzeAllFlags currentDate records) bfs) ↔
      j ∈ greenIdx (mergeAll (analyzeAllFlags currentDate records) bfs')
    rw [mem_greenIdx_mergeAll j bfs _ hnd0,
      mem_greenIdx_mergeAll j bfs' _ hnd0, hex j]

/-! ## C5 — excess-expenditure rule -/

/-- The claim's trigger condition: approval cost strictly positive and
`(total_expenditure − approval_cost) / approval_cost × 100` strictly above
10. -/
def excessTriggers (row : WorkRecord) : Prop :=
  0 < safeFloat row.aaCost ∧
    10 < (safeFloat row.totalExpenditure - safeFloat row.aaCost) /
      safeFloat row.aaCost * 100

instance (row : WorkRecord) : Decidable (excessTriggers row) := by
  unfold excessTriggers
  infer_instance

/-- The claim's finding content: severity HIGH and details carrying the
approval cost, the expenditure, the absolute excess, and the percentage
rounded to two decimals. -/
def excessFindingSpec (row : WorkRecord) : Finding :=
  { flag_id := 3
    flag_name := "Excess Expenditure Without Approval"
    severity := .HIGH
    details := .excess (safeFloat row.aaCost) (safeFloat row.totalExpenditure)
      (safeFloat row.totalExpenditure - safeFloat row.aaCost)
      (round2 ((safeFloat row.totalExpenditure - safeFloat row.aaCost) /
        safeFloat row.aaCost * 100)) }

/-- A record carrying only the two cost fields the rule reads. -/
def mkCostRecord (aa te : ℚ) : WorkRecord :=
  { budgetItemNo := "B"
    nameOfWork := "W"
    roadCategory := none
    aaCost := some aa
    contractCost := none
    totalExpenditure := some te
    workOrderDate := none
    timeLimitDays := none
    physicalProgress := none
    chainageFrom := none
    chainageTo := none }

/-- **C5.**  The excess-expenditure rule emits a finding iff the approval
cost is positive and the excess percentage strictly exceeds 10, and the
finding is exactly the HIGH finding carrying approval cost, expenditure,
absolute excess and the 2-decimal-rounded percentage; it triggers at excess
10.01 %, not at exactly 10.00 %, and approval cost 0 yields no finding. -/
theorem c5_excess_expenditure (row : WorkRecord) :
    (checkExcessExpenditure row =
      if excessTriggers row then some (excessFindingSpec row) else none)
    ∧ (checkExcessExpenditure (mkCostRecord 100 (11001 / 100))).isSome = true
    ∧ checkExcessExpenditure (mkCostRecord 100 110) = none
    ∧ checkExcessExpenditure (mkCostRecord 0 50) = none := by
  refine ⟨?_, by decide, by decide, by decide⟩
  unfold checkExcessExpenditure excessTriggers excessFindingSpec
  by_cases h1 : 0 < safeFloat row.aaCost
  · by_cases h2 : 10 < (safeFloat row.totalExpenditure -
        safeFloat row.aaCost) / safeFloat row.aaCost * 100
    · rw [if_pos h1, if_pos h2, if_pos ⟨h1, h2⟩]
    · rw [if_pos h1, if_neg h2, if_neg (fun hc => h2 hc.2)]
  · rw [if_neg h1, if_neg (fun hc => h1 hc.1)]

/-! ## C6 — delay-in-completion rule -/

/-- The claim's finding content for a parsed date `d`: severity MEDIUM,
delay in days `current − expected_completion`, and the progress
percentage. -/
def delayFindingSpec (currentDate : Int) (d : Date) (row : WorkRecord) :
    Finding :=
  { flag_id := 5
    flag_name := "Delay in Completion of Work"
    severity := .MEDIUM
    details := .delay d.days (safeInt row.timeLimitDays)
      (d.days + safeInt row.timeLimitDays) currentDate
      (currentDate - (d.days + safeInt row.timeLimitDays))
      (safeFloat row.physicalProgress) }

/-- A record carrying only the fields the delay rule reads. -/
def mkDelayRecord (wo : Option Date) (tl : Option Int) (prog : Option ℚ) :
    WorkRecord :=
  { budgetItemNo := "B"
    nameOfWork := "W"
    roadCategory := none
    aaCost := none
    contractCost := none
    totalExpenditure := none
    workOrderDate := wo
    timeLimitDays := tl
    physicalProgress := prog
    chainageFrom := none
    chainageTo := none }

/-- **C6.**  The delay rule emits a finding iff a work-order date is present,
the time limit is strictly positive, the run's fixed current date is
strictly after the expected completion, and progress is below 100; the
finding is the MEDIUM finding carrying the delay in days
(`current − expected_completion`) and the progress percentage.  At current
date 15, a record dated day 0 with limit 10 and progress 50 yields delay 5;
an absent date, a zero time limit, a current date equal to the expected
completion, and progress 100 each yield no finding. -/
theorem c6_delay_in_completion (currentDate : Int) (row row2 : WorkRecord)
    (d : Date) (hd : row.workOrderDate = some d)
    (hd2 : row2.workOrderDate = none) :
    (checkDelayInCompletion currentDate row =
      if 0 < safeInt row.timeLimitDays ∧
          d.days + safeInt row.timeLimitDays < currentDate ∧
          safeFloat row.physicalProgress < 100
      then some (delayFindingSpec currentDate d row) else none)
    ∧ checkDelayInCompletion currentDate row2 = none
    ∧ checkDelayInCompletion 15
        (mkDelayRecord (some ⟨0, 1970⟩) (some 10) (some 50)) =
        some (delayFindingSpec 15 ⟨0, 1970⟩
          (mkDelayRecord (some ⟨0, 1970⟩) (some 10) (some 50)))
    ∧ (delayFindingSpec 15 ⟨0, 1970⟩
        (mkDelayRecord (some ⟨0, 1970⟩) (some 10) (some 50))).details =
        .delay 0 10 10 15 5 50
    ∧ checkDelayInCompletion 15 (mkDelayRecord none (some 10) (some 50)) =
        none
    ∧ checkDelayInCompletion 15
        (mkDelayRecord (some ⟨0, 1970⟩) (some 0) (some 50)) = none
    ∧ checkDelayInCompletion 10
        (mkDelayRecord (some ⟨0, 1970⟩) (some 10) (some 50)) = none
    ∧ checkDelayInCompletion 15
        (mkDelayRecord (some ⟨0, 1970⟩) (some 10) (some 100)) = none := by
  refine ⟨?_, ?_, by decide, by decide, by decide, by decide, by decide,
    by decide⟩
  · have hstep : checkDelayInCompletion currentDate row =
        (if 0 < safeInt row.timeLimitDays then
          (if d.days + safeInt row.timeLimitDays < currentDate ∧
              safeFloat row.physicalProgress < 100 then
            some (delayFindingSpec currentDate d row)
          else none)
        else none) := by
      unfold checkDelayInCompletion delayFindingSpec
      rw [hd]
    rw [hstep]
    by_cases h1 : 0 < safeInt row.timeLimitDays
    · by_cases h2 : d.days + safeInt row.timeLimitDays < currentDate ∧
          safeFloat row.physicalProgress < 100
      · rw [if_pos h1, if_pos h2, if_pos ⟨h1, h2.1, h2.2⟩]
      · rw [if_pos h1, if_neg h2, if_neg (fun hc => h2 ⟨hc.2.1, hc.2.2⟩)]
    · rw [if_neg h1, if_neg (fun hc => h1 hc.1)]
  · have hstep : checkDelayInCompletion currentDate row2 = none := by
      unfold checkDelayInCompletion
      rw [hd2]
    exact hstep

/-- A record the delay rule flags at current date 15. -/
def c6RowLate : WorkRecord := mkDelayRecord (some ⟨0, 1970⟩) (some 10) (some 50)

/-- A record with no work-order date. -/
def c6RowNoDate : WorkRecord := mkDelayRecord none (some 10) (some 50)

/-- Witness for C6 at a concrete delayed record and a concrete dateless
record. -/
theorem c6_delay_in_completion_witness :
    (checkDelayInCompletion 15 c6RowLate =
      if 0 < safeInt c6RowLate.timeLimitDays ∧
          (⟨0, 1970⟩ : Date).days + safeInt c6RowLate.timeLimitDays < 15 ∧
          safeFloat c6RowLate.physicalProgress < 100
      then some (delayFindingSpec 15 ⟨0, 1970⟩ c6RowLate) else none)
    ∧ checkDelayInCompletion 15 c6RowNoDate = none
    ∧ checkDelayInCompletion 15
        (mkDelayRecord (some ⟨0, 1970⟩) (some 10) (some 50)) =
        some (delayFindingSpec 15 ⟨0, 1970⟩
          (mkDelayRecord (some ⟨0, 1970⟩) (some 10) (some 50)))
    ∧ (delayFindingSpec 15 ⟨0, 1970⟩
        (mkDelayRecord (some ⟨0, 1970⟩) (some 10) (some 50))).details =
        .delay 0 10 10 15 5 50
    ∧ checkDelayInCompletion 15 (mkDelayRecord none (some 10) (some 50)) =
        none
    ∧ checkDelayInCompletion 15
        (mkDelayRecord (some ⟨0, 1970⟩) (some 0) (some 50)) = none
    ∧ checkDelayInCompletion 10
        (mkDelayRecord (some ⟨0, 1970⟩) (some 10) (some 50)) = none
    ∧ checkDelayInCompletion 15
        (mkDelayRecord (some ⟨0, 1970⟩) (some 10) (some 100)) = none :=
  c6_delay_in_completion 15 c6RowLate c6RowNoDate ⟨0, 1970⟩ rfl rfl

/-! ## C8 — the rule catalogue (corrected) -/

/-- **C8 counterexample.**  The catalogue of named single-record check
operations contains the survey-wastage no-op but no diversion-of-funds
operation: the claim that both rules are exposed as named operations is
false on the code (diversion of funds exists only as a comment). -/
theorem c8_counterexample :
    ruleCatalogue.map Prod.fst =
      ["_check_survey_wastage", "_check_excess_expenditure",
        "_check_delay_in_completion"]
    ∧ "_check_diversion_of_funds" ∉ ruleCatalogue.map Prod.fst := by
  refine ⟨rfl, ?_⟩
  decide

/-- **C8 amended.**  The evaluator exposes the survey-expenditure-wastage
rule as a named operation that returns no finding for every record, but the
diversion-of-funds rule is not exposed as a named operation at all. -/
theorem c8_amended_catalogue :
    (∃ f, ("_check_survey_wastage", f) ∈ ruleCatalogue ∧
      ∀ (currentDate : Int) (row : WorkRecord), f currentDate row = none)
    ∧ (∀ row : WorkRecord, checkSurveyWastage row = none)
    ∧ "_check_diversion_of_funds" ∉ ruleCatalogue.map Prod.fst := by
  refine ⟨⟨fun _ row => checkSurveyWastage row, ?_, fun _ _ => rfl⟩,
    fun _ => rfl, by decide⟩
  exact List.mem_cons_self _ _

/-! ## C9 — empty / invalid input (corrected) -/

/-- A worksheet consisting of a header row only: zero data records. -/
def c9HeaderOnly : List (List (Option String)) :=
  [[some "Sr.", some "District"]]

/-- **C9 counterexample.**  A header-only worksheet (zero records, all
critical columns missing) is read successfully — `readExcelData` only
errors on a completely empty sheet, `_validate_columns` merely reports the
missing columns — and the engine then completes on the empty record list,
returning an empty result instead of surfacing an error. -/
theorem c9_counterexample :
    readExcelData c9HeaderOnly = .ok ([some "Sr.", some "District"], [])
    ∧ missingCriticalColumns ["Sr.", "District"] = criticalColumns
    ∧ readAndValidate c9HeaderOnly =
        .ok ([some "Sr.", some "District"], [], criticalColumns)
    ∧ analyzeAllFlags 0 [] =
        { total_records := 0, red_flagged := [], green_flagged := [] } := by
  refine ⟨rfl, by decide, rfl, rfl⟩

/-- **C9 amended.**  Only a worksheet with no rows at all is surfaced as the
error `"Excel file is empty"`; any sheet with a header — even with zero data
rows or missing critical columns — is read successfully, and the engine run
on zero records completes with the empty `AnalysisResult`. -/
theorem c9_amended_empty_input :
    readExcelData [] = .error "Excel file is empty"
    ∧ (∀ (header : List (Option String))
        (rows : List (List (Option String))),
        readExcelData (header :: rows) = .ok (header, rows))
    ∧ (∀ currentDate : Int, analyzeAllFlags currentDate [] =
        { total_records := 0, red_flagged := [], green_flagged := [] }) := by
  refine ⟨rfl, fun header rows => ?_, fun _ => rfl⟩
  unfold readExcelData
  rw [if_pos (by simp)]
  rfl

/-! ## C7 — order dependence of the splitting detector (code bug) -/

/-- Splitting sample: chainage `(0, 10)`. -/
def splitA1 : WorkRecord :=
  { budgetItemNo := "S1"
    nameOfWork := "Work one SH 10 part"
    roadCategory := some "SH-10"
    aaCost := none
    contractCost := some 5
    totalExpenditure := none
    workOrderDate := some ⟨19200, 2022⟩
    timeLimitDays := none
    physicalProgress := none
    chainageFrom := some 0
    chainageTo := some 10 }

/-- Splitting sample: no chainage given, treated as `(0, 0)`. -/
def splitA2 : WorkRecord :=
  { budgetItemNo := "S2"
    nameOfWork := "Work two SH 10 part"
    roadCategory := some "SH-10"
    aaCost := none
    contractCost := some 5
    totalExpenditure := none
    workOrderDate := some ⟨19200, 2022⟩
    timeLimitDays := none
    physicalProgress := none
    chainageFrom := none
    chainageTo := none }

/-- Splitting sample: chainage `(6, 6)`. -/
def splitA3 : WorkRecord :=
  { budgetItemNo := "S3"
    nameOfWork := "Work three SH 10 part"
    roadCategory := some "SH-10"
    aaCost := none
    contractCost := some 5
    totalExpenditure := none
    workOrderDate := some ⟨19200, 2022⟩
    timeLimitDays := none
    physicalProgress := none
    chainageFrom := some 6
    chainageTo := some 6 }

/-- **C7 (code bug).**  The splitting detector is not invariant under
permutation of the input record set: the stable sort on chainage-from keeps
input order among tied keys, and the adjacent-gap walk then reads different
neighbours.  On the same three records (same year, category, road key, costs
under the threshold), input order `A1, A2, A3` yields no finding (gap
`6 − 0 = 6 > 5` after sorting), while the permutation `A2, A1, A3` yields a
splitting finding (gaps `0 − 0` and `6 − 10`). -/
theorem c7_splitting_order_dependent :
    List.Perm [splitA2, splitA1, splitA3] [splitA1, splitA2, splitA3]
    ∧ checkSplittingOfWorks [splitA1, splitA2, splitA3] = []
    ∧ checkSplittingOfWorks [splitA2, splitA1, splitA3] =
        [mkSplitFinding "SH10" 2022
          [mkSplitWork (0, splitA2), mkSplitWork (1, splitA1),
            mkSplitWork (2, splitA3)]] := by
  exact ⟨List.Perm.swap splitA1 splitA2 [splitA3], by decide, by decide⟩

/-- The red entry the C2 witness run produces for record index 3. -/
def wEntry3 : RedEntry :=
  { record_index := 3
    budget_item_no := "B2"
    name_of_work := "Improvement SH-1 Km 1 to 2"
    flags := [.batch wBf1, .batch wBf2] }

/-- Witness for C2 at a concrete run: record index 3 starts green and is
implicated by the two distinct batch findings `wBf1` and `wBf2`. -/
theorem c2_promotion_idempotent_witness :
    (runEngine 0 [wRecRed, wRecGreen] [wBf1, wBf2]).red_flagged.countP
        (fun en => en.record_index = 3) = 1
    ∧ RecordFlag.batch wBf1 ∈ wEntry3.flags
    ∧ (3 ∈ redIdx (runEngine 0 [wRecRed, wRecGreen] [wBf1, wBf2]) ↔
        3 ∈ redIdx (runEngine 0 [wRecRed, wRecGreen] [wBf2, wBf1]))
    ∧ (3 ∈ greenIdx (runEngine 0 [wRecRed, wRecGreen] [wBf1, wBf2]) ↔
        3 ∈ greenIdx (runEngine 0 [wRecRed, wRecGreen] [wBf2, wBf1])) := by
  have h := c2_promotion_idempotent 0 [wRecRed, wRecGreen] [wBf1, wBf2]
    [wBf2, wBf1] 3 wBf1 wEntry3
    (by decide)
    (List.Perm.swap wBf2 wBf1 [])
    (by decide) (by decide)
    ⟨wBf1, by decide, wBf2, by decide, by decide, by decide, by decide⟩
    (by decide) (by decide)
  exact ⟨h.1, h.2.1, h.2.2.1 3, h.2.2.2 3⟩

/-! ## C10 — zero-chainage records in the splitting detector -/

/-- A record with no chainage at all, otherwise qualifying for the
splitting bucket of road key `SH7`, year 2022, category `SH-7`. -/
def w10NoCh : WorkRecord :=
  { budgetItemNo := "B7"
    nameOfWork := "Improvement SH-7 Km 0 to 1"
    roadCategory := some "SH-7"
    aaCost := none
    contractCost := some 5
    totalExpenditure := none
    workOrderDate := some ⟨0, 2022⟩
    timeLimitDays := none
    physicalProgress := none
    chainageFrom := none
    chainageTo := none }

/-- A companion record of the same bucket with real chainage `2`–`4`. -/
def w10Far : WorkRecord :=
  { budgetItemNo := "B8"
    nameOfWork := "Improvement SH-7 Km 2 to 4"
    roadCategory := some "SH-7"
    aaCost := none
    contractCost := some 5
    totalExpenditure := none
    workOrderDate := some ⟨0, 2022⟩
    timeLimitDays := none
    physicalProgress := none
    chainageFrom := some 2
    chainageTo := some 4 }

/-- **C10.**  The splitting detector does not exclude a record with absent
(or unparsable, hence `None` after normalization) chainage: whenever its
road key extracts and its contract cost is strictly between 0 and 10, the
record enters its `(year, category, road key)` bucket with chainage treated
as the interval `(0, 0)`, is present in the chainage-from-sorted list the
continuity walk runs on, and (when every bucket member has nonnegative
chainage-from) sorts first in that list; only the overlap detector skips
`(0, 0)`-chainage records — no overlap finding ever lists such a record. -/
theorem c10_zero_chainage_participates (records : List WorkRecord)
    (i : Nat) (r : WorkRecord) (year : Int) (road_cat road_num : String)
    (hi : records[i]? = some r)
    (hyear : yearOf r = some year)
    (hcat : r.roadCategory = some road_cat)
    (hkey : extractRoadNumber r.nameOfWork = some road_num)
    (hc1 : 0 < safeFloat r.contractCost)
    (hc2 : safeFloat r.contractCost < 10)
    (hfrom : r.chainageFrom = none) (hto : r.chainageTo = none) :
    mkSplitWork (i, r) ∈ groupMembers records year road_cat road_num
    ∧ mkSplitWork (i, r) ∈
        sortWorks (groupMembers records year road_cat road_num)
    ∧ (mkSplitWork (i, r)).fromCh = 0 ∧ (mkSplitWork (i, r)).toCh = 0
    ∧ ((∀ w ∈ groupMembers records year road_cat road_num, 0 ≤ w.fromCh) →
        ∃ hd rest,
          sortWorks (groupMembers records year road_cat road_num)
            = hd :: rest ∧ hd.fromCh = 0)
    ∧ ∀ f ∈ checkOverlappingWorks records, ∀ a ∈ f.affected,
        a.record_index ≠ i + 2 := by
  have hspec : (i, r) ∈ splitGroupSpec records year road_cat road_num :=
    (mem_splitGroupSpec records year road_cat road_num (i, r)).2
      ⟨hi, hyear, hcat, hkey, hc1, hc2⟩
  have h1 : mkSplitWork (i, r) ∈ groupMembers records year road_cat
      road_num := by
    rw [groupMembers_eq]
    exact List.mem_map.2 ⟨(i, r), hspec, rfl⟩
  have h2 : mkSplitWork (i, r) ∈
      sortWorks (groupMembers records year road_cat road_num) :=
    (sortWorks_perm _).mem_iff.2 h1
  have hfr0 : (mkSplitWork (i, r)).fromCh = 0 := by
    show safeFloat r.chainageFrom = 0
    rw [hfrom]
    rfl
  have hto0 : (mkSplitWork (i, r)).toCh = 0 := by
    show safeFloat r.chainageTo = 0
    rw [hto]
    rfl
  refine ⟨h1, h2, hfr0, hto0, ?_, ?_⟩
  · intro hpos
    rcases hsw : sortWorks (groupMembers records year road_cat road_num)
      with _ | ⟨hd, rest⟩
    · rw [hsw] at h2
      exact absurd h2 (List.not_mem_nil _)
    · refine ⟨hd, rest, rfl, ?_⟩
      have hsorted : List.Sorted splitWorkLE
          (sortWorks (groupMembers records year road_cat road_num)) :=
        List.sorted_insertionSort splitWorkLE _
      rw [hsw] at hsorted h2
      have hhdmem : hd ∈ groupMembers records year road_cat road_num := by
        apply (sortWorks_perm _).mem_iff.1
        rw [hsw]
        exact List.mem_cons_self hd rest
      have hge : (0 : ℚ) ≤ hd.fromCh := hpos hd hhdmem
      rcases List.mem_cons.1 h2 with heq | hmemrest
      · rw [← heq]
        exact hfr0
      · have hle : splitWorkLE hd (mkSplitWork (i, r)) :=
          (List.sorted_cons.1 hsorted).1 _ hmemrest
        have hle0 : hd.fromCh ≤ 0 := by
          unfold splitWorkLE at hle
          rw [hfr0] at hle
          exact hle
        linarith
  · intro f hf a ha
    obtain ⟨cat, _, p1, hp1, h001, p2, hp2, hpc⟩ :=
      (mem_checkOverlappingWorks records f).1 hf
    obtain ⟨_, h002, _, k, _, _, hfeq⟩ :=
      (overlapPairCheck_eq_some p1 p2 f).1 hpc
    have hne1 : p1.1 ≠ i := by
      intro he
      apply h001
      have hget := ((mem_roadWorksOf records cat p1).1 hp1).1
      rw [he, hi] at hget
      injection hget with hget
      refine ⟨?_, ?_⟩
      · rw [← hget, hfrom]
        rfl
      · rw [← hget, hto]
        rfl
    have hne2 : p2.1 ≠ i := by
      intro he
      apply h002
      have hget := ((mem_roadWorksOf records cat p2).1 hp2).1
      rw [he, hi] at hget
      injection hget with hget
      refine ⟨?_, ?_⟩
      · rw [← hget, hfrom]
        rfl
      · rw [← hget, hto]
        rfl
    subst hfeq
    simp only [mkOverlapFinding, List.mem_cons, List.not_mem_nil,
      or_false] at ha
    rcases ha with h | h
    · subst h
      show p1.1 + 2 ≠ i + 2
      omega
    · subst h
      show p2.1 + 2 ≠ i + 2
      omega

/-- Witness for C10 at a concrete pair of records: the chainage-less record
`w10NoCh` qualifies, enters and heads its sorted bucket, and appears in no
overlap finding. -/
theorem c10_zero_chainage_participates_witness :
    (([w10NoCh, w10Far] : List WorkRecord)[0]? = some w10NoCh
      ∧ yearOf w10NoCh = some 2022
      ∧ w10NoCh.roadCategory = some "SH-7"
      ∧ extractRoadNumber w10NoCh.nameOfWork = some "SH7"
      ∧ 0 < safeFloat w10NoCh.contractCost
      ∧ safeFloat w10NoCh.contractCost < 10
      ∧ w10NoCh.chainageFrom = none ∧ w10NoCh.chainageTo = none)
    ∧ (mkSplitWork (0, w10NoCh) ∈
        groupMembers [w10NoCh, w10Far] 2022 "SH-7" "SH7"
      ∧ mkSplitWork (0, w10NoCh) ∈
          sortWorks (groupMembers [w10NoCh, w10Far] 2022 "SH-7" "SH7")
      ∧ (mkSplitWork (0, w10NoCh)).fromCh = 0
      ∧ (mkSplitWork (0, w10NoCh)).toCh = 0
      ∧ ((∀ w ∈ groupMembers [w10NoCh, w10Far] 2022 "SH-7" "SH7",
            0 ≤ w.fromCh) →
          ∃ hd rest,
            sortWorks (groupMembers [w10NoCh, w10Far] 2022 "SH-7" "SH7")
              = hd :: rest ∧ hd.fromCh = 0)
      ∧ ∀ f ∈ checkOverlappingWorks [w10NoCh, w10Far], ∀ a ∈ f.affected,
          a.record_index ≠ 0 + 2) :=
  ⟨⟨by decide, by decide, by decide, by decide, by decide, by decide,
    by decide, by decide⟩,
   c10_zero_chainage_participates [w10NoCh, w10Far] 0 w10NoCh 2022
     "SH-7" "SH7" (by decide) (by decide) (by decide) (by decide)
     (by decide) (by decide) (by decide) (by decide)⟩

end NMC
